import Mathlib

/-!
Verification of the URI remapping and manifest-expansion engine of
`scripts/inputs/download_singlesamplerefs.py`.

The script is shallowly embedded as follows.

* Python strings are Lean `String`s; the helpers `pyStartsWith`, `pyEndsWith`,
  `pyStrip`, `splitChar`, `posixName`, `pyStem` model `str.startswith`,
  `str.endswith`, `str.strip`, `str.splitlines`/`"/"`-splitting,
  `pathlib.Path(...).name` and `pathlib.Path(...).stem` over the underlying
  character lists.  (`str.strip` is modelled with ASCII whitespace;
  `splitlines` is modelled as splitting on `'\n'`, which agrees with Python
  after the strip-and-drop-empty normalisation the script performs.
  `Path(...).name` of the lone path `"."` differs from pathlib; that input
  never arises here.)
* `pathlib` paths are their string renderings, `p / q` is `p ++ "/" ++ q`
  (`pjoin`); the destination root is an abstract string.  The `Path.resolve`
  calls and `mkdir` calls of the script are not modelled (they only normalise
  and prepare directories and carry no decision logic).
* JSON documents are the closed variant type `Json` (numbers as integers;
  no claim depends on numeric leaves).  `Json.obj` association lists stand
  for Python dicts and are assumed key-unique, as `json.load` guarantees.
* The external world (`gsutil`, the filesystem write for the best-effort
  sample list) is the oracle structure `World`; every observable action of
  a run is recorded in a trace of events `Ev`.  A `gsutil cp`, `gsutil cat`
  or `gsutil stat` invocation always emits its event; the oracle decides its
  exit status.  `subprocess.check_call` failure of a copy propagates as
  `RunRes.fatal returncode` exactly as `subprocess.CalledProcessError`
  propagates to the `sys.exit(e.returncode)` handler at the bottom of the
  script; `gsutil cat` failure is returned as `none` to the caller, which is
  the only place the script catches it; `gsutil stat` failure is folded into
  a nonzero exit code, which `gsutil_exists` maps to `false`.
  Verbose `print("[gsutil]", ...)` command echoes are not modelled; all other
  prints appear as `Ev.msg` events (long message bodies abbreviated where no
  claim depends on their text).
-/

/-! ## String helpers modelling Python string and pathlib operations -/

/-- Boolean list-prefix test; `isPre p l` is true when `p` is a prefix of `l`. -/
def isPre : List Char → List Char → Bool
  | [], _ => true
  | _ :: _, [] => false
  | a :: as, b :: bs => a = b && isPre as bs

/-- Models Python `s.startswith(p)`. -/
def pyStartsWith (s p : String) : Bool := isPre p.data s.data

/-- Models Python `s.endswith(p)`. -/
def pyEndsWith (s p : String) : Bool := isPre p.data.reverse s.data.reverse

/-- Models Python `s.strip()` (ASCII whitespace). -/
def pyStrip (s : String) : String :=
  String.mk (((s.data.dropWhile Char.isWhitespace).reverse.dropWhile Char.isWhitespace).reverse)

/-- Splits a character list at every occurrence of `sep`; always nonempty,
with the separators removed (like Python `str.split(sep)`). -/
def splitChar (sep : Char) : List Char → List (List Char)
  | [] => [[]]
  | c :: rest =>
    if c = sep then [] :: splitChar sep rest
    else
      match splitChar sep rest with
      | [] => [[c]]
      | g :: gs => (c :: g) :: gs

/-- Models `pathlib.Path(s).name`: the last nonempty `/`-separated component. -/
def posixName (s : String) : String :=
  String.mk (((splitChar '/' s.data).filter (fun p => !p.isEmpty)).getLastD [])

/-- Index of the last occurrence of `c` in `l`, if any (Python `str.rfind`). -/
def lastIdxOf (c : Char) (l : List Char) : Option Nat :=
  match l.reverse.findIdx? (fun x => x = c) with
  | some j => some (l.length - 1 - j)
  | none => none

/-- Models `pathlib.Path(n).stem` on a bare file name `n`: drop the last
dot-suffix when the last dot sits strictly inside the name. -/
def pyStem (n : String) : String :=
  match lastIdxOf '.' n.data with
  | some i => if 0 < i ∧ i < n.data.length - 1 then String.mk (n.data.take i) else n
  | none => n

/-- Models `gs_uri[5:]`, dropping the five characters of the `gs://` scheme. -/
def strip_scheme (s : String) : String := String.mk (s.data.drop 5)

/-- Models `pathlib` path joining `a / b` for a relative segment `b`,
rendered as a string. -/
def pjoin (a b : String) : String := a ++ "/" ++ b

/-- Python code-point lexicographic strict order on character lists. -/
def lexLt : List Char → List Char → Bool
  | [], [] => false
  | [], _ :: _ => true
  | _ :: _, [] => false
  | a :: as, b :: bs =>
    if a.toNat < b.toNat then true
    else if b.toNat < a.toNat then false
    else lexLt as bs

/-- Python string `≤`, used to model `sorted(...)` on URIs. -/
def pyStrLe (s t : String) : Bool := !(lexLt t.data s.data)

/-- Models Python `sorted(...)` on a list of strings. -/
def sortUris (l : List String) : List String :=
  List.insertionSort (fun a b => pyStrLe a b = true) l

/-- Python truthiness of `exclude_list_uri` (a missing key or empty string is
falsy). -/
def pyTruthyStrOpt : Option String → Bool
  | some e => e != ""
  | none => false

/-! ## The JSON data model, URI scanner and JSON rewriter -/

/-- Closed variant type for the JSON-like documents the script manipulates. -/
inductive Json where
  | obj : List (String × Json) → Json
  | arr : List Json → Json
  | str : String → Json
  | num : Int → Json
  | bool : Bool → Json
  | null : Json

mutual
def decEqJson : (a b : Json) → Decidable (a = b)
  | .obj x, .obj y =>
    match decEqKVs x y with
    | isTrue h => isTrue (by rw [h])
    | isFalse h => isFalse (fun hh => h (by injection hh))
  | .arr x, .arr y =>
    match decEqArr x y with
    | isTrue h => isTrue (by rw [h])
    | isFalse h => isFalse (fun hh => h (by injection hh))
  | .str x, .str y =>
    if h : x = y then isTrue (by rw [h]) else isFalse (fun hh => h (by injection hh))
  | .num x, .num y =>
    if h : x = y then isTrue (by rw [h]) else isFalse (fun hh => h (by injection hh))
  | .bool x, .bool y =>
    if h : x = y then isTrue (by rw [h]) else isFalse (fun hh => h (by injection hh))
  | .null, .null => isTrue rfl
  | .obj _, .arr _ | .obj _, .str _ | .obj _, .num _ | .obj _, .bool _ | .obj _, .null
  | .arr _, .obj _ | .arr _, .str _ | .arr _, .num _ | .arr _, .bool _ | .arr _, .null
  | .str _, .obj _ | .str _, .arr _ | .str _, .num _ | .str _, .bool _ | .str _, .null
  | .num _, .obj _ | .num _, .arr _ | .num _, .str _ | .num _, .bool _ | .num _, .null
  | .bool _, .obj _ | .bool _, .arr _ | .bool _, .str _ | .bool _, .num _ | .bool _, .null
  | .null, .obj _ | .null, .arr _ | .null, .str _ | .null, .num _ | .null, .bool _ =>
    isFalse (fun h => Json.noConfusion h)

def decEqArr : (a b : List Json) → Decidable (a = b)
  | [], [] => isTrue rfl
  | [], _ :: _ => isFalse (fun h => List.noConfusion h)
  | _ :: _, [] => isFalse (fun h => List.noConfusion h)
  | x :: xs, y :: ys =>
    match decEqJson x y, decEqArr xs ys with
    | isTrue h1, isTrue h2 => isTrue (by rw [h1, h2])
    | isFalse h1, _ => isFalse (fun hh => h1 (by injection hh))
    | _, isFalse h2 => isFalse (fun hh => h2 (by injection hh))

def decEqKVs : (a b : List (String × Json)) → Decidable (a = b)
  | [], [] => isTrue rfl
  | [], _ :: _ => isFalse (fun h => List.noConfusion h)
  | _ :: _, [] => isFalse (fun h => List.noConfusion h)
  | (k, v) :: xs, (k', v') :: ys =>
    match String.decEq k k', decEqJson v v', decEqKVs xs ys with
    | isTrue h0, isTrue h1, isTrue h2 => isTrue (by rw [h0, h1, h2])
    | isFalse h0, _, _ =>
      isFalse (fun hh => h0 (by injection hh with h3 h4; injection h3))
    | _, isFalse h1, _ =>
      isFalse (fun hh => h1 (by injection hh with h3 h4; injection h3))
    | _, _, isFalse h2 => isFalse (fun hh => h2 (by injection hh))
end

instance : DecidableEq Json := decEqJson

mutual
/-- Models the recursive URI collection of `find_gs_uris` (the `rec` helper):
dict values and list elements are visited recursively, string leaves with the
`gs://` prefix are collected. -/
def collectUris : Json → List String
  | .obj kvs => collectUrisKVs kvs
  | .arr xs => collectUrisArr xs
  | .str s => if pyStartsWith s "gs://" then [s] else []
  | .num _ => []
  | .bool _ => []
  | .null => []

def collectUrisArr : List Json → List String
  | [] => []
  | x :: xs => collectUris x ++ collectUrisArr xs

def collectUrisKVs : List (String × Json) → List String
  | [] => []
  | (_, v) :: kvs => collectUris v ++ collectUrisKVs kvs
end

/-- Models `find_gs_uris`: the set of collected URIs (first occurrences). -/
def find_gs_uris (doc : Json) : List String := (collectUris doc).dedup

/-- Models `sorted(find_gs_uris(singlesample))` from `main`. -/
def gsUris (doc : Json) : List String := sortUris (find_gs_uris doc)

/-- First-match association lookup, modelling Python dict indexing for the
key-unique dictionaries the script builds. -/
def lookupA (m : List (String × String)) (k : String) : Option String :=
  match m with
  | [] => none
  | (k', v) :: rest => if k' = k then some v else lookupA rest k

/-- First-match lookup in a JSON object, modelling `dict.get`. -/
def jsonGet (kvs : List (String × Json)) (k : String) : Option Json :=
  match kvs with
  | [] => none
  | (k', v) :: rest => if k' = k then some v else jsonGet rest k

/-- Models `singlesample.get("GATKSVPipelineSingleSample.ref_samples_list")`.
A missing key or a non-string value both make every later
`uri != exclude_list_uri` comparison true, so they are folded into `none`. -/
def getExcludeListUri (doc : Json) : Option String :=
  match doc with
  | .obj kvs =>
    match jsonGet kvs "GATKSVPipelineSingleSample.ref_samples_list" with
    | some (.str s) => some s
    | _ => none
  | _ => none

mutual
/-- Models the `rec` helper of `replace_uris_in_obj`: mappings keep their keys
and rewrite values, sequences rewrite elements, a string present as a key of
`mapping` is replaced by its mapped value, everything else passes through. -/
def replaceJ (mapping : List (String × String)) : Json → Json
  | .obj kvs => .obj (replaceKVs mapping kvs)
  | .arr xs => .arr (replaceArr mapping xs)
  | .str s =>
    match lookupA mapping s with
    | some v => .str v
    | none => .str s
  | .num n => .num n
  | .bool b => .bool b
  | .null => .null

def replaceArr (mapping : List (String × String)) : List Json → List Json
  | [] => []
  | x :: xs => replaceJ mapping x :: replaceArr mapping xs

def replaceKVs (mapping : List (String × String)) : List (String × Json) → List (String × Json)
  | [] => []
  | (k, v) :: kvs => (k, replaceJ mapping v) :: replaceKVs mapping kvs
end

/-- Models `replace_uris_in_obj(obj, mapping)`. -/
def replace_uris_in_obj (obj : Json) (mapping : List (String × String)) : Json :=
  replaceJ mapping obj

mutual
/-- Comparator for the spec's description of the rewriter on a single-pair
mapping `{A: B}`: replace every string leaf equal to `A` by `B`, recursively,
keys never substituted, all other leaves untouched.  Written from the spec's
words, to be compared with `replace_uris_in_obj`. -/
def specSubstJ (A B : String) : Json → Json
  | .obj kvs => .obj (specSubstKVs A B kvs)
  | .arr xs => .arr (specSubstArr A B xs)
  | .str s => if s = A then .str B else .str s
  | .num n => .num n
  | .bool b => .bool b
  | .null => .null

def specSubstArr (A B : String) : List Json → List Json
  | [] => []
  | x :: xs => specSubstJ A B x :: specSubstArr A B xs

def specSubstKVs (A B : String) : List (String × Json) → List (String × Json)
  | [] => []
  | (k, v) :: kvs => (k, specSubstJ A B v) :: specSubstKVs A B kvs
end

/-! ## The manifest expander -/

/-- Models `is_list_uri`. -/
def is_list_uri (uri : String) : Bool := pyEndsWith uri ".list"

/-- Models `maybe_tbi_for_gz`. -/
def maybe_tbi_for_gz (gs_uri : String) : String := gs_uri ++ ".tbi"

/-- Models `normalize_list_lines`: split into lines, strip, drop blanks and
`#` comments. -/
def normalize_list_lines (text : String) : List String :=
  ((splitChar '\n' text.data).map (fun l => pyStrip (String.mk l))).filter
    (fun s => (s != "") && (!pyStartsWith s "#"))

/-- Models the pure part of `plan_list_downloads`, with the manifest content
`text` (the result of `gsutil_cat`) passed in by the caller.  Returns
`(target_list_path, item_plans)`; an item destination is `some` local path
for `gs://` entries and `none` for opaque literals. -/
def plan_list_downloads (gs_list_uri : String) (dest_root : String) (text : String) :
    String × List (String × Option String) :=
  let list_basename := posixName (strip_scheme gs_list_uri)
  let list_stem := pyStem list_basename
  let subdir := pjoin dest_root list_stem
  let target_list_path := pjoin dest_root list_basename
  let items := normalize_list_lines text
  let item_plans := items.map (fun entry =>
    if pyStartsWith entry "gs://" then
      (entry, some (pjoin subdir (posixName (strip_scheme entry))))
    else (entry, none))
  (target_list_path, item_plans)

/-- Models Python `str(dst)` on an optional path, which renders `None` for a
missing destination. -/
def pyStrOptPath : Option String → String
  | some p => p
  | none => "None"

/-- Models the content assembled by `write_local_list`: one line per item,
the local path for `gs://` sources and the literal otherwise, newline
terminated.  The branch tests the `gs://` prefix of the source, exactly as
the script does. -/
def write_local_list_content (item_plans : List (String × Option String)) : String :=
  String.intercalate "\n" (item_plans.map (fun sd =>
    if pyStartsWith sd.1 "gs://" then pyStrOptPath sd.2 else sd.1)) ++ "\n"

/-- Renders an item plan entry by its destination when one exists, used to
state that `write_local_list` never renders a `None` destination. -/
def renderByDst (sd : String × Option String) : String := sd.2.getD sd.1

/-- Models `make_dest_path_for_uri`. -/
def make_dest_path_for_uri (gs_uri : String) (dest_root : String) (mirror : Bool) : String :=
  if mirror then pjoin dest_root (strip_scheme gs_uri)
  else pjoin dest_root (posixName (strip_scheme gs_uri))

/-! ## The external-world oracle, events and run results -/

/-- The recognised configuration flags of `parse_args` that the modelled
fragment consults (path-valued options are passed separately). -/
structure Args where
  mirror : Bool
  skip_download : Bool
  download_cram : Bool
  dry_run : Bool
  backup : Bool
  verbose : Bool
  show_diff : Bool
deriving DecidableEq

/-- Oracle for the external collaborators of a run: `catResult uri` is the
text printed by `gsutil cat uri` (or `none` when the process exits nonzero
and `subprocess.check_output` raises), `statExit uri` is the exit status of
`gsutil stat uri`, `cpExit src dst` is the exit status of
`gsutil cp src dst`, and `sampleListWriteFails` says whether the best-effort
sample-list write at the end of `main` raises (for example because the
destination directory does not exist). -/
structure World where
  catResult : String → Option String
  statExit : String → Nat
  cpExit : String → String → Nat
  sampleListWriteFails : Bool

/-- Observable actions of a run: subprocess invocations (`cp`, `cat`,
`stat`), file writes, the backup copy, and printed messages. -/
inductive Ev where
  | cp (src dst : String)
  | cat (uri : String)
  | stat (uri : String)
  | writeFile (path content : String)
  | writeJson (path : String) (doc : Json)
  | copyFile (src dst : String)
  | msg (text : String)
deriving DecidableEq

/-- Result of a run fragment: normal completion, or an uncaught
`subprocess.CalledProcessError` carrying the return code that
`sys.exit(e.returncode)` would use. -/
inductive RunRes (α : Type) where
  | ok (a : α)
  | fatal (code : Nat)
deriving DecidableEq

/-- Models `run_gsutil_cp`: always invokes the copy; a nonzero exit raises. -/
def run_gsutil_cp (w : World) (src dst : String) : List Ev × RunRes Unit :=
  ([Ev.cp src dst], if w.cpExit src dst = 0 then .ok () else .fatal (w.cpExit src dst))

/-- Models `gsutil_cat`: invokes the read; `none` is the raised
`CalledProcessError`, which only `main`'s manifest loop catches. -/
def gsutil_cat_run (w : World) (gs_uri : String) : List Ev × Option String :=
  ([Ev.cat gs_uri], w.catResult gs_uri)

/-- Models `gsutil_exists`: invokes `gsutil stat` and folds the
`try`/`except CalledProcessError` into a boolean, so a failing existence
check behaves exactly like a missing object. -/
def gsutil_exists_run (w : World) (gs_uri : String) : List Ev × Bool :=
  ([Ev.stat gs_uri], w.statExit gs_uri == 0)

/-- Message printed by the cram/crai policy skip. -/
def skipCramMsg (src dst : String) : String := "[SKIP-CRAM] " ++ src ++ " -> " ++ dst

/-- Message printed when no companion `.tbi` exists. -/
def noTbiMsg (src : String) : String := "[INFO] No .tbi found for " ++ src

/-- Tag used by the preview prints of the item loop. -/
def dryTag (dry : Bool) : String := if dry then "[DRY-RUN]" else "[SKIP-DL]"

/-- Warning printed when reading a manifest fails (exception text omitted). -/
def warnListMsg (uri : String) : String := "WARNING: failed to read list " ++ uri

/-- Models one iteration of the item-download loop inside `main`'s manifest
expansion (the body guarded by
`isinstance(src, str) and src.startswith("gs://") and dst is not None`):
cram/crai policy skip, the actual transfer with opportunistic `.tbi`
companion fetch, or the preview print branch. -/
def fetch_list_item (w : World) (a : Args) (src : String) (dst : Option String) :
    List Ev × RunRes Unit :=
  match dst with
  | none => ([], .ok ())
  | some d =>
    if pyStartsWith src "gs://" then
      if !a.download_cram && (pyEndsWith src ".cram" || pyEndsWith src ".crai") then
        ((if a.verbose then [Ev.msg (skipCramMsg src d)] else []), .ok ())
      else if !a.dry_run && !a.skip_download then
        let (t1, r1) := run_gsutil_cp w src d
        match r1 with
        | .fatal n => (t1, .fatal n)
        | .ok _ =>
          if pyEndsWith src ".gz" && !pyEndsWith src ".gz.tbi" then
            let tbi_uri := maybe_tbi_for_gz src
            let (t2, ex) := gsutil_exists_run w tbi_uri
            if ex then
              let (t3, r3) := run_gsutil_cp w tbi_uri (d ++ ".tbi")
              (t1 ++ t2 ++ t3, r3)
            else
              (t1 ++ t2 ++ (if a.verbose then [Ev.msg (noTbiMsg src)] else []), .ok ())
          else (t1, .ok ())
      else
        ((if a.verbose || a.dry_run then
            [Ev.msg (dryTag a.dry_run ++ " " ++ src ++ " -> " ++ d)] ++
            (if pyEndsWith src ".gz" && !pyEndsWith src ".gz.tbi" then
              [Ev.msg (dryTag a.dry_run ++ " (if exists) " ++ maybe_tbi_for_gz src ++
                " -> " ++ d ++ ".tbi")]
            else [])
          else []), .ok ())
    else ([], .ok ())

/-- Models the item-download loop over a manifest's plans; an uncaught copy
failure aborts the rest of the run. -/
def fetch_list_items (w : World) (a : Args) : List (String × Option String) →
    List Ev × RunRes Unit
  | [] => ([], .ok ())
  | (src, dst) :: rest =>
    let (t, r) := fetch_list_item w a src dst
    match r with
    | .fatal n => (t, .fatal n)
    | .ok _ =>
      let (t', r') := fetch_list_items w a rest
      (t ++ t', r')

/-- Models `write_local_list`: a dry run only prints, otherwise the rewritten
local manifest is written. -/
def write_local_list_run (a : Args) (target_list_path : String)
    (item_plans : List (String × Option String)) : List Ev :=
  if a.dry_run then
    [Ev.msg ("[DRY-RUN] Would write list: " ++ target_list_path)] ++
    (if a.verbose then [Ev.msg (write_local_list_content item_plans)] else [])
  else
    [Ev.writeFile target_list_path (write_local_list_content item_plans)] ++
    (if a.verbose then [Ev.msg ("Wrote list: " ++ target_list_path)] else [])

/-- The `uri != exclude_list_uri` test of the expansion loop (true when the
URI equals the designated excluded manifest). -/
def excludeMatches (exclude : Option String) (uri : String) : Bool :=
  match exclude with
  | some e => uri == e
  | none => false

/-- Models one iteration of `main`'s manifest-expansion loop for one scanned
URI: non-manifest and excluded URIs are untouched; a failed manifest read is
caught, warned about and skipped; otherwise the items are fetched, the local
list written, and the manifest mapped to its local copy. -/
def process_list_uri (w : World) (a : Args) (dest_root : String)
    (exclude : Option String) (uri : String) :
    List Ev × RunRes (Option (String × String)) :=
  if is_list_uri uri && !excludeMatches exclude uri then
    let (tc, res) := gsutil_cat_run w uri
    match res with
    | none => (tc ++ [Ev.msg (warnListMsg uri)], .ok none)
    | some text =>
      let (target_list_path, item_plans) := plan_list_downloads uri dest_root text
      let (ti, r) := fetch_list_items w a item_plans
      match r with
      | .fatal n => (tc ++ ti, .fatal n)
      | .ok _ =>
        (tc ++ ti ++ write_local_list_run a target_list_path item_plans,
         .ok (some (uri, target_list_path)))
  else ([], .ok none)

/-- Models `main`'s manifest-expansion loop over all scanned URIs, returning
the accumulated `list_mappings`. -/
def expand_lists_stage (w : World) (a : Args) (dest_root : String)
    (exclude : Option String) : List String → List Ev × RunRes (List (String × String))
  | [] => ([], .ok [])
  | uri :: rest =>
    let (t, r) := process_list_uri w a dest_root exclude uri
    match r with
    | .fatal n => (t, .fatal n)
    | .ok mo =>
      let (t', r') := expand_lists_stage w a dest_root exclude rest
      match r' with
      | .fatal n => (t ++ t', .fatal n)
      | .ok lm => (t ++ t', .ok (mo.toList ++ lm))

/-- Models `uri_to_local.update(list_mappings)`: existing keys keep their
position with the updated value, new keys are appended. -/
def updateAssoc (base upd : List (String × String)) : List (String × String) :=
  base.map (fun kv =>
    match lookupA upd kv.1 with
    | some v => (kv.1, v)
    | none => kv) ++
  upd.filter (fun kv => (lookupA base kv.1).isNone)

/-- Models one iteration of the top-level download loop (`main`'s else
branch): manifest URIs are unconditionally skipped, the cram/crai policy is
applied, then the file and opportunistically its `.tbi` companion are
fetched. -/
def fetch_top_uri (w : World) (a : Args) (uri local_path : String) :
    List Ev × RunRes Unit :=
  if is_list_uri uri then ([], .ok ())
  else if !a.download_cram && (pyEndsWith uri ".cram" || pyEndsWith uri ".crai") then
    ((if a.verbose then [Ev.msg (skipCramMsg uri local_path)] else []), .ok ())
  else
    let (t1, r1) := run_gsutil_cp w uri local_path
    match r1 with
    | .fatal n => (t1, .fatal n)
    | .ok _ =>
      if pyEndsWith uri ".gz" && !pyEndsWith uri ".gz.tbi" then
        let tbi_uri := maybe_tbi_for_gz uri
        let (t2, ex) := gsutil_exists_run w tbi_uri
        if ex then
          let (t3, r3) := run_gsutil_cp w tbi_uri (local_path ++ ".tbi")
          (t1 ++ t2 ++ t3, r3)
        else
          (t1 ++ t2 ++ (if a.verbose then [Ev.msg (noTbiMsg uri)] else []), .ok ())
      else (t1, .ok ())

/-- Models the top-level download loop over the whole URI-to-local mapping. -/
def top_fetch_loop (w : World) (a : Args) : List (String × String) →
    List Ev × RunRes Unit
  | [] => ([], .ok ())
  | (uri, lp) :: rest =>
    let (t, r) := fetch_top_uri w a uri lp
    match r with
    | .fatal n => (t, .fatal n)
    | .ok _ =>
      let (t', r') := top_fetch_loop w a rest
      (t ++ t', r')

/-- Models the per-URI preview prints of the dry-run/skip-download branch of
the top-level loop. -/
def planned_download_msgs (a : Args) : List (String × String) → List Ev
  | [] => []
  | (uri, lp) :: rest =>
    (if is_list_uri uri then []
     else if !a.download_cram && (pyEndsWith uri ".cram" || pyEndsWith uri ".crai") then
       [Ev.msg ("  " ++ skipCramMsg uri lp)]
     else
       [Ev.msg ("  " ++ uri ++ " -> " ++ lp)] ++
       (if pyEndsWith uri ".gz" && !pyEndsWith uri ".gz.tbi" then
         [Ev.msg ("    (if exists) " ++ uri ++ ".tbi -> " ++ lp ++ ".tbi")]
       else [])) ++ planned_download_msgs a rest

/-- Models the branch of `main` that either previews or performs the
top-level downloads. -/
def top_level_stage (w : World) (a : Args) (u2l : List (String × String)) :
    List Ev × RunRes Unit :=
  if a.dry_run || a.skip_download then
    ((if a.verbose || a.dry_run then
        [Ev.msg "Planned downloads (top-level URIs):"] ++ planned_download_msgs a u2l
      else []), .ok ())
  else top_fetch_loop w a u2l

/-- Models the update of one target JSON: dry run prints (a diff preview when
requested), otherwise an optional `.bak` copy followed by the in-place write
of the rewritten document.  The rendered diff text is abbreviated to its
header line. -/
def update_one_json (a : Args) (path : String) (doc : Json)
    (u2l : List (String × String)) : List Ev :=
  if a.dry_run then
    if a.show_diff then [Ev.msg ("--- Diff preview for " ++ path ++ " ---")]
    else [Ev.msg ("[DRY-RUN] Would update: " ++ path)]
  else
    (if a.backup then [Ev.copyFile path (path ++ ".bak")] else []) ++
    [Ev.writeJson path (replace_uris_in_obj doc u2l)] ++
    (if a.verbose then [Ev.msg ("Updated: " ++ path)] else [])

/-- Models the loop updating every target JSON. -/
def update_jsons_stage (a : Args) (u2l : List (String × String)) :
    List (String × Json) → List Ev
  | [] => []
  | (p, d) :: rest => update_one_json a p d u2l ++ update_jsons_stage a u2l rest

/-! ## Best-effort sample-list derivation, summary, and the whole run -/

/-- Python truthiness of a JSON value. -/
def jsonTruthy : Json → Bool
  | .null => false
  | .bool b => b
  | .num n => n != 0
  | .str s => s != ""
  | .arr xs => !xs.isEmpty
  | .obj kvs => !kvs.isEmpty

/-- Models Python `str(...)` on a JSON scalar as written into the sample
list; container reprs are abbreviated (no claim inspects them). -/
def pyStrJson : Json → String
  | .str s => s
  | .num n => toString n
  | .bool true => "True"
  | .bool false => "False"
  | .null => "None"
  | .arr _ => "<list repr>"
  | .obj _ => "<dict repr>"

/-- Models Python iteration `for s in v`: lists yield elements, strings yield
characters, dicts yield keys, other scalars raise `TypeError`. -/
def pyIterate : Json → Option (List Json)
  | .arr xs => some xs
  | .str s => some (s.data.map (fun c => Json.str (String.mk [c])))
  | .obj kvs => some (kvs.map (fun kv => Json.str kv.1))
  | _ => none

/-- Models `rp.get("sample_ids") or rp.get("samples") or []`; `none` when
`rp` is not a mapping (the `AttributeError` case, caught by the same
`except`). -/
def ref_panel_samples_value (doc : Json) : Option Json :=
  match doc with
  | .obj kvs =>
    let v1 := (jsonGet kvs "sample_ids").getD .null
    let v2 := (jsonGet kvs "samples").getD .null
    some (if jsonTruthy v1 then v1 else if jsonTruthy v2 then v2 else .arr [])
  | _ => none

/-- Content of the derived sample list: one `str(s)` per line. -/
def sample_list_content (items : List Json) : String :=
  String.join (items.map (fun s => pyStrJson s ++ "\n"))

/-- The warning printed when the best-effort sample-list step raises
(exception text omitted). -/
def ref_panel_warn : Ev := Ev.msg "[WARN] Could not write ref_panel_1kg sample list"

/-- Models the best-effort block at the end of `main` that derives
`ref_panel_1kg.samples.list` from any target named `ref_panel_1kg.json`.
The single `try` wraps the whole loop, so the first raising iteration
prints one warning and abandons the remaining targets; the step runs even in
dry-run mode and rereads the target files, so `docs` must carry the on-disk
documents at this point of the run. -/
def ref_panel_stage (w : World) (dest : String) : List (String × Json) → List Ev
  | [] => []
  | (path, doc) :: rest =>
    if pyEndsWith path "ref_panel_1kg.json" then
      match ref_panel_samples_value doc with
      | none => [ref_panel_warn]
      | some v =>
        match pyIterate v with
        | none => [ref_panel_warn]
        | some items =>
          if w.sampleListWriteFails then [ref_panel_warn]
          else
            [Ev.writeFile (pjoin dest "ref_panel_1kg.samples.list")
               (sample_list_content items),
             Ev.msg ("[INFO] Wrote sample list: " ++
               pjoin dest "ref_panel_1kg.samples.list")] ++ ref_panel_stage w dest rest
    else ref_panel_stage w dest rest

/-- Models the `Found ... gs:// URIs` / `Excluding list from expansion`
prints near the top of `main`. -/
def header_msgs (a : Args) (exclude : Option String) (uris : List String) : List Ev :=
  if a.verbose || a.dry_run then
    [Ev.msg ("Found " ++ toString uris.length ++ " gs URIs in singlesample.")] ++
    (if pyTruthyStrOpt exclude then
      [Ev.msg ("Excluding list from expansion: " ++ exclude.getD "")]
    else [])
  else []

/-- Models the final summary prints (bodies abbreviated). -/
def summary_stage (exclude : Option String) (uris : List String)
    (list_mappings u2l : List (String × String)) : List Ev :=
  [Ev.msg "Summary", Ev.msg ("Files referenced: " ++ toString uris.length)] ++
  (if pyTruthyStrOpt exclude then
    [Ev.msg ("Excluded list: " ++ exclude.getD "")]
  else []) ++
  (if !list_mappings.isEmpty then
    [Ev.msg ("Expanded lists: " ++ toString list_mappings.length)]
  else []) ++
  (if !uris.isEmpty then
    [Ev.msg "Example mappings:"] ++
    (u2l.take 10).map (fun kv => Ev.msg ("  " ++ kv.1 ++ " -> " ++ kv.2))
  else [])

/-- Models the direct `uri_to_local` mapping loop of `main`. -/
def direct_u2l (doc : Json) (dest_root : String) (mirror : Bool) :
    List (String × String) :=
  (gsUris doc).map (fun u => (u, make_dest_path_for_uri u dest_root mirror))

/-- Models `main` from the point where the input documents have been loaded:
scan, direct mapping, manifest expansion, top-level downloads, JSON updates,
best-effort sample list, summary.  `singlesample` is the loaded primary
document, `targets` the loaded update documents with their path strings.
The input-existence checks preceding this fragment only validate
configuration.  Writing then rereading a target is modelled as the identity
on the document. -/
def main_model (w : World) (a : Args) (dest_root : String) (singlesample : Json)
    (targets : List (String × Json)) : List Ev × RunRes Unit :=
  let exclude := getExcludeListUri singlesample
  let uris := gsUris singlesample
  let header := header_msgs a exclude uris
  let base := direct_u2l singlesample dest_root a.mirror
  let (t1, r1) := expand_lists_stage w a dest_root exclude uris
  match r1 with
  | .fatal n => (header ++ t1, .fatal n)
  | .ok lm =>
    let u2l := updateAssoc base lm
    let (t2, r2) := top_level_stage w a u2l
    match r2 with
    | .fatal n => (header ++ t1 ++ t2, .fatal n)
    | .ok _ =>
      let t3 := update_jsons_stage a u2l targets
      let post := if a.dry_run then targets
                  else targets.map (fun pd => (pd.1, replace_uris_in_obj pd.2 u2l))
      let t4 := ref_panel_stage w dest_root post
      let t5 := summary_stage exclude uris lm u2l
      (header ++ t1 ++ t2 ++ t3 ++ t4 ++ t5, .ok ())

/-- The final URI-to-local mapping consumed by the JSON rewriter, as built by
`main` (on a run that aborts before the merge the mapping is never consumed;
the base mapping is returned in that case). -/
def main_u2l (w : World) (a : Args) (dest_root : String) (singlesample : Json) :
    List (String × String) :=
  let base := direct_u2l singlesample dest_root a.mirror
  match (expand_lists_stage w a dest_root (getExcludeListUri singlesample)
      (gsUris singlesample)).2 with
  | .ok lm => updateAssoc base lm
  | .fatal _ => base

/-- Models the process exit code produced by the `__main__` wrapper:
`sys.exit(e.returncode)` on an uncaught `CalledProcessError`, 0 otherwise. -/
def script_exit_code (w : World) (a : Args) (dest_root : String)
    (singlesample : Json) (targets : List (String × Json)) : Nat :=
  match (main_model w a dest_root singlesample targets).2 with
  | .ok _ => 0
  | .fatal n => n

/-! ## Derived observers and concrete scenarios used in the theorems -/

/-- The local path created by an event, if any: a copy destination or a
written file. -/
def createdPath : Ev → Option String
  | .cp _ dst => some dst
  | .writeFile p _ => some p
  | .writeJson p _ => some p
  | .copyFile _ dst => some dst
  | _ => none

/-- Source object of a transfer event, if any. -/
def cpSource : Ev → Option String
  | .cp src _ => some src
  | _ => none

/-- Recognises a printed message event. -/
def isMsgEv : Ev → Bool
  | .msg _ => true
  | _ => false

/-- Recognises a `gsutil cat` subprocess event. -/
def isCatEv : Ev → Bool
  | .cat _ => true
  | _ => false

/-- Recognises a `gsutil cp` subprocess event. -/
def isCpEv : Ev → Bool
  | .cp _ _ => true
  | _ => false

/-- Events a dry run may still produce: prints, manifest-content reads, and
the best-effort sample-list write under the destination root. -/
def isDryObservable (dest_root : String) : Ev → Bool
  | .msg _ => true
  | .cat _ => true
  | .writeFile p _ => p == pjoin dest_root "ref_panel_1kg.samples.list"
  | _ => false

/-- The `list_mappings` accumulated by the manifest-expansion loop (empty on
the abort paths, where the script never consumes them). -/
def stage_mappings (w : World) (a : Args) (dest_root : String)
    (exclude : Option String) (us : List String) : List (String × String) :=
  match (expand_lists_stage w a dest_root exclude us).2 with
  | .ok lm => lm
  | .fatal _ => []

/-- Flags with every option clear: the script's defaults. -/
def argsDefault : Args :=
  { mirror := false, skip_download := false, download_cram := false, dry_run := false,
    backup := false, verbose := false, show_diff := false }

/-- Flags for a plain `--dry-run` invocation. -/
def argsDry : Args := { argsDefault with dry_run := true }

/-- Scenario world: every manifest read yields a single cram entry, no `.tbi`
companions exist, every copy succeeds. -/
def wCram : World :=
  { catResult := fun _ => some "gs://b/x.cram\n", statExit := fun _ => 1,
    cpExit := fun _ _ => 0, sampleListWriteFails := false }

/-- Scenario world: every manifest read yields a single plain entry, no
`.tbi` companions exist, every copy succeeds. -/
def wTxt : World :=
  { catResult := fun _ => some "gs://b/x.txt\n", statExit := fun _ => 1,
    cpExit := fun _ _ => 0, sampleListWriteFails := false }

/-- Scenario world: every manifest read fails, no `.tbi` companions exist,
every copy succeeds. -/
def wNoCat : World :=
  { catResult := fun _ => none, statExit := fun _ => 1,
    cpExit := fun _ _ => 0, sampleListWriteFails := false }

/-- Scenario world: every manifest read yields a single plain entry, every
existence check succeeds, every copy succeeds. -/
def wStatOk : World :=
  { catResult := fun _ => some "gs://b/x.txt\n", statExit := fun _ => 0,
    cpExit := fun _ _ => 0, sampleListWriteFails := false }

/-- Scenario document containing one manifest URI. -/
def docOneList : Json := Json.obj [("k", Json.str "gs://b/m.list")]

/-- Scenario document whose exclusion key names a manifest that also appears
under another key, next to a second, expandable manifest. -/
def docExcl : Json :=
  Json.obj [("GATKSVPipelineSingleSample.ref_samples_list", Json.str "gs://b/excl.list"),
    ("other", Json.str "gs://b/excl.list"),
    ("third", Json.str "gs://b/other.list")]

/-- The `list_mappings` entry contributed by one iteration of the
manifest-expansion loop, as a pure function of the oracle: a manifest that is
scanned, not excluded, and whose content read succeeds maps to its local
list path under the destination root. -/
def process_result (w : World) (dest_root : String) (exclude : Option String)
    (uri : String) : Option (String × String) :=
  if is_list_uri uri && !excludeMatches exclude uri then
    match w.catResult uri with
    | some _ => some (uri, pjoin dest_root (posixName (strip_scheme uri)))
    | none => none
  else none

/-! ## Theorems -/

mutual
theorem replaceJ_single_eq (A B : String) : (j : Json) →
    replaceJ [(A, B)] j = specSubstJ A B j
  | .obj kvs => by
    simp only [replaceJ, specSubstJ]
    rw [replaceKVs_single_eq A B kvs]
  | .arr xs => by
    simp only [replaceJ, specSubstJ]
    rw [replaceArr_single_eq A B xs]
  | .str s => by
    simp only [replaceJ, specSubstJ, lookupA]
    by_cases h : A = s
    · subst h
      simp
    · rw [if_neg h, if_neg (fun hh => h hh.symm)]
  | .num n => rfl
  | .bool b => rfl
  | .null => rfl

theorem replaceArr_single_eq (A B : String) : (xs : List Json) →
    replaceArr [(A, B)] xs = specSubstArr A B xs
  | [] => rfl
  | x :: xs => by
    simp only [replaceArr, specSubstArr]
    rw [replaceJ_single_eq A B x, replaceArr_single_eq A B xs]

theorem replaceKVs_single_eq (A B : String) : (kvs : List (String × Json)) →
    replaceKVs [(A, B)] kvs = specSubstKVs A B kvs
  | [] => rfl
  | (k, v) :: kvs => by
    simp only [replaceKVs, specSubstKVs]
    rw [replaceJ_single_eq A B v, replaceKVs_single_eq A B kvs]
end

/-- C4: for every JSON-like document and mapping `{A: B}`, the rewriter
`replace_uris_in_obj` replaces every string leaf equal to `A` with `B`,
recursively at any nesting depth, and leaves every other string leaf, every
mapping key, every sequence structure and every non-string scalar unchanged —
that is, it coincides with the structural single-substitution function
written from the spec's words. -/
theorem C4_rewriter_single_mapping (A B : String) (doc : Json) :
    replace_uris_in_obj doc [(A, B)] = specSubstJ A B doc :=
  replaceJ_single_eq A B doc

/-- C7: the Path Mapper is pure and deterministic; on
`gs://bucket/a/b/c.txt` it strips the scheme and joins the destination root
with the basename in flat mode and with the full object path (bucket
included) in mirror mode. -/
theorem C7_path_mapper_flat_and_mirror (root : String) :
    make_dest_path_for_uri "gs://bucket/a/b/c.txt" root false = pjoin root "c.txt" ∧
    make_dest_path_for_uri "gs://bucket/a/b/c.txt" root true =
      pjoin root "bucket/a/b/c.txt" := by
  constructor
  · show pjoin root (posixName (strip_scheme "gs://bucket/a/b/c.txt")) = _
    rw [show posixName (strip_scheme "gs://bucket/a/b/c.txt") = "c.txt" from by decide]
  · show pjoin root (strip_scheme "gs://bucket/a/b/c.txt") = _
    rw [show strip_scheme "gs://bucket/a/b/c.txt" = "bucket/a/b/c.txt" from by decide]

theorem plan_entry_shape (gs_list_uri dest_root text : String)
    (sd : String × Option String)
    (h : sd ∈ (plan_list_downloads gs_list_uri dest_root text).2) :
    (pyStartsWith sd.1 "gs://" = true ∧
      sd.2 = some (pjoin (pjoin dest_root (pyStem (posixName (strip_scheme gs_list_uri))))
        (posixName (strip_scheme sd.1)))) ∨
    (pyStartsWith sd.1 "gs://" = false ∧ sd.2 = none) := by
  simp only [plan_list_downloads] at h
  rcases List.mem_map.mp h with ⟨entry, _, hEq⟩
  by_cases hp : pyStartsWith entry "gs://"
  · rw [if_pos hp] at hEq
    cases hEq
    exact Or.inl ⟨hp, rfl⟩
  · rw [if_neg hp] at hEq
    cases hEq
    exact Or.inr ⟨Bool.not_eq_true _ ▸ (by simpa using hp), rfl⟩

theorem write_local_list_content_renderByDst (gs_list_uri dest_root text : String) :
    write_local_list_content (plan_list_downloads gs_list_uri dest_root text).2 =
      String.intercalate "\n"
        ((plan_list_downloads gs_list_uri dest_root text).2.map renderByDst) ++ "\n" := by
  unfold write_local_list_content
  congr 1
  congr 1
  apply List.map_congr_left
  intro sd hsd
  rcases plan_entry_shape gs_list_uri dest_root text sd hsd with ⟨hp, hd⟩ | ⟨hp, hd⟩
  · rw [if_pos hp]
    simp [renderByDst, hd, pyStrOptPath]
  · rw [if_neg (by simp [hp])]
    simp [renderByDst, hd]

/-- C10: every `(source, destination)` pair produced by
`plan_list_downloads` has `destination = none` exactly when the source lacks
the `gs://` prefix, a non-`none` destination is
`dest_root/<manifest stem>/<entry basename>`, and the content written by
`write_local_list` renders each entry by its destination when one exists and
by the literal source otherwise — so the `gs://`-prefix branch it uses never
renders the string `"None"` for a plan produced by the planner. -/
theorem C10_plan_invariant_and_render (gs_list_uri dest_root text : String) :
    (∀ sd ∈ (plan_list_downloads gs_list_uri dest_root text).2,
      (sd.2 = none ↔ pyStartsWith sd.1 "gs://" = false) ∧
      (∀ d, sd.2 = some d →
        d = pjoin (pjoin dest_root (pyStem (posixName (strip_scheme gs_list_uri))))
          (posixName (strip_scheme sd.1)))) ∧
    write_local_list_content (plan_list_downloads gs_list_uri dest_root text).2 =
      String.intercalate "\n"
        ((plan_list_downloads gs_list_uri dest_root text).2.map renderByDst) ++ "\n" := by
  constructor
  · intro sd hsd
    rcases plan_entry_shape gs_list_uri dest_root text sd hsd with ⟨hp, hd⟩ | ⟨hp, hd⟩
    · constructor
      · rw [hd, hp]
        simp
      · intro d hdEq
        rw [hd] at hdEq
        cases hdEq
        rfl
    · constructor
      · rw [hd, hp]
        simp
      · intro d hdEq
        rw [hd] at hdEq
        cases hdEq
  · exact write_local_list_content_renderByDst gs_list_uri dest_root text

/-- C1 counterexample: the fetch loop consults no filesystem state at all
(the script contains no destination-existence check), so a rerun is the very
same deterministic call.  In this scenario the first invocation of the
top-level fetch performs the transfer that creates `/REF/x.txt`; the second
invocation with the same plan is the identical expression and still performs
one transfer — not zero — and `gsutil cp` overwrites the existing file. -/
theorem C1_counterexample_rerun_transfers_again :
    (top_level_stage wTxt argsDefault [("gs://b/x.txt", "/REF/x.txt")]).1 =
      [Ev.cp "gs://b/x.txt" "/REF/x.txt"] ∧
    (top_level_stage wTxt argsDefault [("gs://b/x.txt", "/REF/x.txt")]).1.count
      (Ev.cp "gs://b/x.txt" "/REF/x.txt") = 1 := by decide

/-- C2 counterexample: with the dry-run flag set and a document containing
one expandable manifest URI, the run still invokes the `gsutil cat`
subprocess to read the manifest content, contradicting "zero subprocess
invocations". -/
theorem C2_counterexample_dry_run_invokes_cat :
    Ev.cat "gs://b/m.list" ∈ (main_model wTxt argsDry "/REF" docOneList []).1 := by decide

/-- C3 counterexample: a manifest whose only entry is `gs://b/x.cram`, with
the cram flag absent and verbosity off.  The entry is skipped (no transfer)
and nothing is logged, but the rewritten local manifest substitutes it like
any other remote entry: the written content is the local destination path
`/REF/m/x.cram`, not the original remote reference. -/
theorem C3_counterexample_skipped_entry_substituted :
    (process_list_uri wCram argsDefault "/REF" none "gs://b/m.list").1 =
      [Ev.cat "gs://b/m.list", Ev.writeFile "/REF/m.list" "/REF/m/x.cram\n"] ∧
    write_local_list_content [("gs://b/x.cram", some "/REF/m/x.cram")] ≠
      "gs://b/x.cram\n" := by decide

theorem self_ne_append_tbi (s : String) : s ≠ s ++ ".tbi" := by
  intro h
  have hlen := congrArg String.length h
  rw [String.length_append] at hlen
  have h4 : (".tbi" : String).length = 4 := rfl
  omega

theorem isPre_cons_false (a b : Char) (as bs : List Char) (h : ¬(a = b)) :
    isPre (a :: as) (b :: bs) = false := by
  simp [isPre, h]

theorem append_tbi_not_cram (s : String) : pyEndsWith (s ++ ".tbi") ".cram" = false := by
  unfold pyEndsWith
  rw [String.data_append, List.reverse_append]
  rw [show (".tbi" : String).data.reverse = ['i', 'b', 't', '.'] from by decide]
  rw [show (".cram" : String).data.reverse = ['m', 'a', 'r', 'c', '.'] from by decide]
  simp [isPre]

theorem append_tbi_not_crai (s : String) : pyEndsWith (s ++ ".tbi") ".crai" = false := by
  unfold pyEndsWith
  rw [String.data_append, List.reverse_append]
  rw [show (".tbi" : String).data.reverse = ['i', 'b', 't', '.'] from by decide]
  rw [show (".crai" : String).data.reverse = ['i', 'a', 'r', 'c', '.'] from by decide]
  simp [isPre]

theorem append_tbi_not_list (s : String) : is_list_uri (s ++ ".tbi") = false := by
  unfold is_list_uri pyEndsWith
  rw [String.data_append, List.reverse_append]
  rw [show (".tbi" : String).data.reverse = ['i', 'b', 't', '.'] from by decide]
  rw [show (".list" : String).data.reverse = ['t', 's', 'i', 'l', '.'] from by decide]
  simp [isPre]

theorem run_gsutil_cp_ok (w : World) (s d : String) (h : w.cpExit s d = 0) :
    run_gsutil_cp w s d = ([Ev.cp s d], .ok ()) := by
  simp [run_gsutil_cp, h]

theorem fetch_top_uri_ok (w : World) (a : Args) (uri lp : String)
    (hcp : ∀ s d, w.cpExit s d = 0) : (fetch_top_uri w a uri lp).2 = .ok () := by
  unfold fetch_top_uri
  split
  · rfl
  · split
    · rfl
    · rw [run_gsutil_cp_ok w uri lp (hcp uri lp)]
      simp only [gsutil_exists_run]
      split
      · split
        · rw [run_gsutil_cp_ok w _ _ (hcp _ _)]
        · rfl
      · rfl

theorem fetch_top_uri_trace_head (w : World) (a : Args) (uri lp : String)
    (hlist : is_list_uri uri = false)
    (hcram : (!a.download_cram && (pyEndsWith uri ".cram" || pyEndsWith uri ".crai")) = false) :
    ∃ t, (fetch_top_uri w a uri lp).1 = Ev.cp uri lp :: t := by
  unfold fetch_top_uri
  rw [if_neg (by simp [hlist]), if_neg (by simp [hcram])]
  by_cases h0 : w.cpExit uri lp = 0 <;>
    by_cases hgz : (pyEndsWith uri ".gz" && !pyEndsWith uri ".gz.tbi") = true <;>
    by_cases hst : (w.statExit (maybe_tbi_for_gz uri) == 0) = true <;>
    simp [run_gsutil_cp, gsutil_exists_run, h0, hgz, hst]

theorem fetch_top_uri_performs_cp (w : World) (a : Args) (uri lp : String)
    (hlist : is_list_uri uri = false)
    (hcram : (!a.download_cram && (pyEndsWith uri ".cram" || pyEndsWith uri ".crai")) = false) :
    Ev.cp uri lp ∈ (fetch_top_uri w a uri lp).1 := by
  rcases fetch_top_uri_trace_head w a uri lp hlist hcram with ⟨t, ht⟩
  rw [ht]
  exact List.mem_cons_self _ _

theorem top_fetch_loop_mem (w : World) (a : Args) (u2l : List (String × String))
    (uri lp : String) (hmem : (uri, lp) ∈ u2l)
    (hlist : is_list_uri uri = false)
    (hcram : (!a.download_cram && (pyEndsWith uri ".cram" || pyEndsWith uri ".crai")) = false)
    (hcp : ∀ s d, w.cpExit s d = 0) :
    Ev.cp uri lp ∈ (top_fetch_loop w a u2l).1 := by
  induction u2l with
  | nil => cases hmem
  | cons kv rest ih =>
    rcases kv with ⟨u, l⟩
    rcases hft : fetch_top_uri w a u l with ⟨t, r⟩
    have hr : r = .ok () := by
      have := fetch_top_uri_ok w a u l hcp
      rw [hft] at this
      exact this
    subst hr
    rcases List.mem_cons.mp hmem with hEq | htl
    · cases hEq
      have hhead := fetch_top_uri_performs_cp w a uri lp hlist hcram
      rw [hft] at hhead
      simp only [top_fetch_loop, hft]
      exact List.mem_append.mpr (Or.inl hhead)
    · simp only [top_fetch_loop, hft]
      exact List.mem_append.mpr (Or.inr (ih htl))

/-- C1 (amended): the Selective Fetcher performs no destination-existence
check whatsoever — the fetch loop takes no filesystem input — so every
eligible plan entry (non-manifest, not policy-skipped) is transferred on
every run, existing destination files are overwritten by the transfer tool,
and re-running with the same plan repeats every transfer instead of
performing zero. -/
theorem C1_amended_every_run_transfers (w : World) (a : Args)
    (u2l : List (String × String)) (uri lp : String)
    (hdry : a.dry_run = false) (hskip : a.skip_download = false)
    (hmem : (uri, lp) ∈ u2l)
    (hlist : is_list_uri uri = false)
    (hcram : (!a.download_cram && (pyEndsWith uri ".cram" || pyEndsWith uri ".crai")) = false)
    (hcp : ∀ s d, w.cpExit s d = 0) :
    Ev.cp uri lp ∈ (top_level_stage w a u2l).1 := by
  unfold top_level_stage
  rw [if_neg (by simp [hdry, hskip])]
  exact top_fetch_loop_mem w a u2l uri lp hmem hlist hcram hcp

theorem C1_amended_every_run_transfers_witness :
    Ev.cp "gs://b/x.txt" "/REF/x.txt" ∈
      (top_level_stage wTxt argsDefault [("gs://b/x.txt", "/REF/x.txt")]).1 :=
  C1_amended_every_run_transfers wTxt argsDefault [("gs://b/x.txt", "/REF/x.txt")]
    "gs://b/x.txt" "/REF/x.txt" rfl rfl (by decide) (by decide) (by decide)
    (fun _ _ => rfl)

/-- C6: for a fetched top-level source ending in `.gz` but not `.gz.tbi`,
the fetcher invokes the `.tbi` existence check; exactly one additional
transfer to `destination + ".tbi"` occurs when the check's process exits 0,
and zero additional transfers occur — with no error raised — when it exits
nonzero, which covers both a missing object and a failing check process
(`gsutil_exists` folds its `except CalledProcessError` into `False`). -/
theorem C6_companion_fetch_top (w : World) (a : Args) (uri lp : String)
    (hlist : is_list_uri uri = false)
    (hcram : (!a.download_cram && (pyEndsWith uri ".cram" || pyEndsWith uri ".crai")) = false)
    (hgz : pyEndsWith uri ".gz" = true)
    (hgztbi : pyEndsWith uri ".gz.tbi" = false)
    (hcp : w.cpExit uri lp = 0) :
    ((fetch_top_uri w a uri lp).1.count (Ev.cp (maybe_tbi_for_gz uri) (lp ++ ".tbi")) =
      if w.statExit (maybe_tbi_for_gz uri) = 0 then 1 else 0) ∧
    Ev.stat (maybe_tbi_for_gz uri) ∈ (fetch_top_uri w a uri lp).1 ∧
    (w.statExit (maybe_tbi_for_gz uri) ≠ 0 → (fetch_top_uri w a uri lp).2 = .ok ()) := by
  unfold fetch_top_uri
  rw [if_neg (by simp [hlist]), if_neg (by simp [hcram])]
  have h1 : ¬(uri = uri ++ ".tbi") := self_ne_append_tbi uri
  by_cases hst : w.statExit (uri ++ ".tbi") = 0 <;>
    simp [run_gsutil_cp, gsutil_exists_run, maybe_tbi_for_gz, hcp, hgz, hgztbi, hst,
      List.count_cons, h1] <;>
    cases a.verbose <;> simp

theorem C6_companion_fetch_top_witness :
    ((fetch_top_uri wStatOk argsDefault "gs://b/d.vcf.gz" "/REF/d.vcf.gz").1.count
      (Ev.cp (maybe_tbi_for_gz "gs://b/d.vcf.gz") ("/REF/d.vcf.gz" ++ ".tbi")) =
      if wStatOk.statExit (maybe_tbi_for_gz "gs://b/d.vcf.gz") = 0 then 1 else 0) ∧
    Ev.stat (maybe_tbi_for_gz "gs://b/d.vcf.gz") ∈
      (fetch_top_uri wStatOk argsDefault "gs://b/d.vcf.gz" "/REF/d.vcf.gz").1 ∧
    (wStatOk.statExit (maybe_tbi_for_gz "gs://b/d.vcf.gz") ≠ 0 →
      (fetch_top_uri wStatOk argsDefault "gs://b/d.vcf.gz" "/REF/d.vcf.gz").2 = .ok ()) :=
  C6_companion_fetch_top wStatOk argsDefault "gs://b/d.vcf.gz" "/REF/d.vcf.gz"
    (by decide) (by decide) (by decide) (by decide) rfl

theorem fetch_list_item_shape (w : World) (a : Args) (s : String) (od : Option String) :
    ∀ e ∈ (fetch_list_item w a s od).1, ∃ d, od = some d ∧
      (e = Ev.cp s d ∨ e = Ev.cp (s ++ ".tbi") (d ++ ".tbi") ∨
       e = Ev.stat (s ++ ".tbi") ∨ isMsgEv e = true) := by
  intro e he
  match od with
  | none => simp [fetch_list_item] at he
  | some d =>
    refine ⟨d, rfl, ?_⟩
    by_cases h1 : pyStartsWith s "gs://" = true <;>
    by_cases h2 : (!a.download_cram && (pyEndsWith s ".cram" || pyEndsWith s ".crai")) = true <;>
    by_cases h3 : (!a.dry_run && !a.skip_download) = true <;>
    by_cases h4 : (pyEndsWith s ".gz" && !pyEndsWith s ".gz.tbi") = true <;>
    by_cases h5 : w.statExit (s ++ ".tbi") = 0 <;>
    by_cases h0 : w.cpExit s d = 0 <;>
    cases hv : a.verbose <;>
    simp [fetch_list_item, run_gsutil_cp, gsutil_exists_run, maybe_tbi_for_gz,
      h1, h2, h3, h4, h5, h0, hv] at he <;>
    aesop

theorem fetch_list_item_safe (w : World) (a : Args) (s : String) (od : Option String)
    (hsafe : a.dry_run = true ∨ ∀ u v, w.cpExit u v = 0) :
    (fetch_list_item w a s od).2 = .ok () := by
  match od with
  | none => rfl
  | some d =>
    rcases hsafe with hdry | hcp <;>
    by_cases h1 : pyStartsWith s "gs://" = true <;>
    by_cases h2 : (!a.download_cram && (pyEndsWith s ".cram" || pyEndsWith s ".crai")) = true <;>
    by_cases h3 : (!a.dry_run && !a.skip_download) = true <;>
    by_cases h4 : (pyEndsWith s ".gz" && !pyEndsWith s ".gz.tbi") = true <;>
    by_cases h5 : w.statExit (s ++ ".tbi") = 0 <;>
    cases hv : a.verbose <;>
    simp_all [fetch_list_item, run_gsutil_cp, gsutil_exists_run, maybe_tbi_for_gz] <;>
    (repeat' split) <;> rfl

theorem fetch_list_item_dry (w : World) (a : Args) (s : String) (od : Option String)
    (hdry : a.dry_run = true) :
    ∀ e ∈ (fetch_list_item w a s od).1, isMsgEv e = true := by
  intro e he
  match od with
  | none => simp [fetch_list_item] at he
  | some d =>
    by_cases h1 : pyStartsWith s "gs://" = true <;>
    by_cases h2 : (!a.download_cram && (pyEndsWith s ".cram" || pyEndsWith s ".crai")) = true <;>
    by_cases h4 : (pyEndsWith s ".gz" && !pyEndsWith s ".gz.tbi") = true <;>
    cases hv : a.verbose <;>
    simp_all [fetch_list_item, run_gsutil_cp, gsutil_exists_run, maybe_tbi_for_gz, isMsgEv] <;>
    aesop

theorem fetch_list_item_cram_no_cp (w : World) (a : Args) (s : String) (od : Option String)
    (hdl : a.download_cram = false)
    (hcram : (pyEndsWith s ".cram" || pyEndsWith s ".crai") = true) :
    ∀ e ∈ (fetch_list_item w a s od).1, isCpEv e = false := by
  intro e he
  match od with
  | none => simp [fetch_list_item] at he
  | some d =>
    cases hv : a.verbose <;>
    simp_all [fetch_list_item, isCpEv] <;>
    aesop

theorem fetch_list_items_mem (w : World) (a : Args) (plans : List (String × Option String)) :
    ∀ e ∈ (fetch_list_items w a plans).1,
      ∃ sd ∈ plans, e ∈ (fetch_list_item w a sd.1 sd.2).1 := by
  induction plans with
  | nil => intro e he; simp [fetch_list_items] at he
  | cons sd rest ih =>
    intro e he
    rcases sd with ⟨src, dst⟩
    rcases hfi : fetch_list_item w a src dst with ⟨t, r⟩
    rcases r with _ | n <;>
      simp only [fetch_list_items, hfi] at he
    · rcases List.mem_append.mp he with h | h
      · exact ⟨(src, dst), List.mem_cons_self _ _, by rw [hfi]; exact h⟩
      · rcases ih e h with ⟨sd', hsd', hin⟩
        exact ⟨sd', List.mem_cons_of_mem _ hsd', hin⟩
    · exact ⟨(src, dst), List.mem_cons_self _ _, by rw [hfi]; exact he⟩

theorem fetch_list_items_safe (w : World) (a : Args) (plans : List (String × Option String))
    (hsafe : a.dry_run = true ∨ ∀ u v, w.cpExit u v = 0) :
    (fetch_list_items w a plans).2 = .ok () := by
  induction plans with
  | nil => rfl
  | cons sd rest ih =>
    rcases sd with ⟨src, dst⟩
    rcases hfi : fetch_list_item w a src dst with ⟨t, r⟩
    have hok : r = .ok () := by
      have := fetch_list_item_safe w a src dst hsafe
      rw [hfi] at this
      exact this
    subst hok
    simp only [fetch_list_items, hfi]
    exact ih

theorem write_local_list_run_shape (a : Args) (target : String)
    (plans : List (String × Option String)) :
    ∀ e ∈ write_local_list_run a target plans,
      isMsgEv e = true ∨ e = Ev.writeFile target (write_local_list_content plans) := by
  intro e he
  cases hd : a.dry_run <;> cases hv : a.verbose <;>
    simp_all [write_local_list_run, isMsgEv] <;> aesop

theorem write_local_list_run_dry (a : Args) (target : String)
    (plans : List (String × Option String)) (hdry : a.dry_run = true) :
    ∀ e ∈ write_local_list_run a target plans, isMsgEv e = true := by
  intro e he
  cases hv : a.verbose <;> simp_all [write_local_list_run, isMsgEv] <;> aesop

theorem process_list_uri_not_cond (w : World) (a : Args) (root : String)
    (ex : Option String) (uri : String)
    (h : (is_list_uri uri && !excludeMatches ex uri) = false) :
    process_list_uri w a root ex uri = ([], .ok none) := by
  unfold process_list_uri
  rw [if_neg (by simp [h])]

theorem process_list_uri_warn (w : World) (a : Args) (root : String)
    (ex : Option String) (uri : String)
    (hcond : (is_list_uri uri && !excludeMatches ex uri) = true)
    (hcat : w.catResult uri = none) :
    process_list_uri w a root ex uri =
      ([Ev.cat uri, Ev.msg (warnListMsg uri)], .ok none) := by
  unfold process_list_uri
  rw [if_pos hcond]
  simp [gsutil_cat_run, hcat]

theorem plan_list_downloads_fst (uri root text : String) :
    (plan_list_downloads uri root text).1 = pjoin root (posixName (strip_scheme uri)) := rfl

theorem process_list_uri_mem (w : World) (a : Args) (root : String)
    (ex : Option String) (uri : String) :
    ∀ e ∈ (process_list_uri w a root ex uri).1,
      e = Ev.cat uri ∨ e = Ev.msg (warnListMsg uri) ∨
      (∃ text, w.catResult uri = some text ∧
        (e ∈ (fetch_list_items w a (plan_list_downloads uri root text).2).1 ∨
         e ∈ write_local_list_run a (plan_list_downloads uri root text).1
           (plan_list_downloads uri root text).2)) := by
  intro e he
  by_cases hcond : (is_list_uri uri && !excludeMatches ex uri) = true
  · unfold process_list_uri at he
    rw [if_pos hcond] at he
    rcases hc : w.catResult uri with _ | text <;>
      simp only [gsutil_cat_run, hc] at he
    · simp at he
      tauto
    · rcases hp : plan_list_downloads uri root text with ⟨target, plans⟩
      rw [hp] at he
      rcases hfi : fetch_list_items w a plans with ⟨ti, r⟩
      rcases r with _ | n <;> simp only [hfi] at he <;> simp at he <;>
        rcases he with he | he 
      · tauto
      · rcases he with he | he
        · exact Or.inr (Or.inr ⟨text, rfl, Or.inl (by rw [hp, hfi]; exact he)⟩)
        · exact Or.inr (Or.inr ⟨text, rfl, Or.inr (by rw [hp]; exact he)⟩)
      · tauto
      · exact Or.inr (Or.inr ⟨text, rfl, Or.inl (by rw [hp, hfi]; exact he)⟩)
  · rw [process_list_uri_not_cond w a root ex uri (by simpa using hcond)] at he
    simp at he

theorem process_list_uri_safe (w : World) (a : Args) (root : String)
    (ex : Option String) (uri : String)
    (hsafe : a.dry_run = true ∨ ∀ u v, w.cpExit u v = 0) :
    (process_list_uri w a root ex uri).2 = .ok (process_result w root ex uri) := by
  by_cases hcond : (is_list_uri uri && !excludeMatches ex uri) = true
  · unfold process_list_uri process_result
    rw [if_pos hcond, if_pos hcond]
    rcases hc : w.catResult uri with _ | text <;>
      simp only [gsutil_cat_run, hc]
    rcases hp : plan_list_downloads uri root text with ⟨target, plans⟩
    rcases hfi : fetch_list_items w a plans with ⟨ti, r⟩
    have hok : r = .ok () := by
      have := fetch_list_items_safe w a plans hsafe
      rw [hfi] at this
      exact this
    subst hok
    have htarget : target = pjoin root (posixName (strip_scheme uri)) := by
      have := plan_list_downloads_fst uri root text
      rw [hp] at this
      exact this
    simp [htarget]
  · rw [process_list_uri_not_cond w a root ex uri (by simpa using hcond)]
    unfold process_result
    rw [if_neg (by simpa using hcond)]

theorem process_list_uri_dry (w : World) (a : Args) (root : String)
    (ex : Option String) (uri : String) (hdry : a.dry_run = true) :
    ∀ e ∈ (process_list_uri w a root ex uri).1,
      isMsgEv e = true ∨ e = Ev.cat uri := by
  intro e he
  rcases process_list_uri_mem w a root ex uri e he with h | h | ⟨text, _, h | h⟩
  · exact Or.inr h
  · exact Or.inl (by rw [h]; rfl)
  · rcases fetch_list_items_mem w a _ e h with ⟨sd, _, hin⟩
    exact Or.inl (fetch_list_item_dry w a sd.1 sd.2 hdry e hin)
  · exact Or.inl (write_local_list_run_dry a _ _ hdry e h)

theorem process_list_uri_cat_mem (w : World) (a : Args) (root : String)
    (ex : Option String) (uri : String)
    (hcond : (is_list_uri uri && !excludeMatches ex uri) = true) :
    Ev.cat uri ∈ (process_list_uri w a root ex uri).1 := by
  unfold process_list_uri
  rw [if_pos hcond]
  rcases hc : w.catResult uri with _ | text <;>
    simp only [gsutil_cat_run, hc]
  · simp
  · rcases hp : plan_list_downloads uri root text with ⟨target, plans⟩
    rcases hfi : fetch_list_items w a plans with ⟨ti, r⟩
    rcases r with _ | n <;> simp

theorem process_list_uri_cat_inv (w : World) (a : Args) (root : String)
    (ex : Option String) (uri u : String)
    (hmem : Ev.cat u ∈ (process_list_uri w a root ex uri).1) :
    u = uri ∧ (is_list_uri uri && !excludeMatches ex uri) = true := by
  by_cases hcond : (is_list_uri uri && !excludeMatches ex uri) = true
  · refine ⟨?_, hcond⟩
    rcases process_list_uri_mem w a root ex uri _ hmem with h | h | ⟨text, _, h | h⟩
    · injection h
    · injection h
    · rcases fetch_list_items_mem w a _ _ h with ⟨sd, _, hin⟩
      rcases fetch_list_item_shape w a sd.1 sd.2 _ hin with ⟨d, _, hsh⟩
      rcases hsh with h' | h' | h' | h' <;> simp [isMsgEv] at h'
    · rcases write_local_list_run_shape a _ _ _ h with h' | h' <;>
        simp [isMsgEv] at h'
  · rw [process_list_uri_not_cond w a root ex uri (by simpa using hcond)] at hmem
    simp at hmem

theorem expand_lists_stage_mem (w : World) (a : Args) (root : String)
    (ex : Option String) (us : List String) :
    ∀ e ∈ (expand_lists_stage w a root ex us).1,
      ∃ u ∈ us, e ∈ (process_list_uri w a root ex u).1 := by
  induction us with
  | nil => intro e he; simp [expand_lists_stage] at he
  | cons u rest ih =>
    intro e he
    rcases hp : process_list_uri w a root ex u with ⟨t, r⟩
    rcases r with mo | n <;> simp only [expand_lists_stage, hp] at he
    · rcases hs : expand_lists_stage w a root ex rest with ⟨t', r'⟩
      rw [hs] at he
      rcases r' with lm | n' <;> simp only [] at he <;>
        rcases List.mem_append.mp he with h | h
      · exact ⟨u, List.mem_cons_self _ _, by rw [hp]; exact h⟩
      · rcases ih e (by rw [hs]; exact h) with ⟨u', hu', hin⟩
        exact ⟨u', List.mem_cons_of_mem _ hu', hin⟩
      · exact ⟨u, List.mem_cons_self _ _, by rw [hp]; exact h⟩
      · rcases ih e (by rw [hs]; exact h) with ⟨u', hu', hin⟩
        exact ⟨u', List.mem_cons_of_mem _ hu', hin⟩
    · exact ⟨u, List.mem_cons_self _ _, by rw [hp]; exact he⟩

theorem expand_lists_stage_safe (w : World) (a : Args) (root : String)
    (ex : Option String) (us : List String)
    (hsafe : a.dry_run = true ∨ ∀ u v, w.cpExit u v = 0) :
    (expand_lists_stage w a root ex us).2 =
      .ok (us.filterMap (process_result w root ex)) := by
  induction us with
  | nil => rfl
  | cons u rest ih =>
    rcases hp : process_list_uri w a root ex u with ⟨t, r⟩
    have hr : r = .ok (process_result w root ex u) := by
      have := process_list_uri_safe w a root ex u hsafe
      rw [hp] at this
      exact this
    subst hr
    rcases hs : expand_lists_stage w a root ex rest with ⟨t', r'⟩
    have hr' : r' = .ok (rest.filterMap (process_result w root ex)) := by
      have := ih
      rw [hs] at this
      exact this
    subst hr'
    simp only [expand_lists_stage, hp, hs, List.filterMap_cons]
    rcases process_result w root ex u with _ | kv <;> simp

theorem expand_lists_stage_trace_append (w : World) (a : Args) (root : String)
    (ex : Option String) (l1 l2 : List String)
    (hsafe : a.dry_run = true ∨ ∀ u v, w.cpExit u v = 0) :
    (expand_lists_stage w a root ex (l1 ++ l2)).1 =
      (expand_lists_stage w a root ex l1).1 ++ (expand_lists_stage w a root ex l2).1 := by
  induction l1 with
  | nil => simp [expand_lists_stage]
  | cons u rest ih =>
    rcases hp : process_list_uri w a root ex u with ⟨t, r⟩
    have hr : r = .ok (process_result w root ex u) := by
      have := process_list_uri_safe w a root ex u hsafe
      rw [hp] at this
      exact this
    subst hr
    rcases hs : expand_lists_stage w a root ex (rest ++ l2) with ⟨ta, ra⟩
    have hra : ra = .ok ((rest ++ l2).filterMap (process_result w root ex)) := by
      have := expand_lists_stage_safe w a root ex (rest ++ l2) hsafe
      rw [hs] at this
      exact this
    subst hra
    rcases hs1 : expand_lists_stage w a root ex rest with ⟨t1, r1⟩
    have hr1 : r1 = .ok (rest.filterMap (process_result w root ex)) := by
      have := expand_lists_stage_safe w a root ex rest hsafe
      rw [hs1] at this
      exact this
    subst hr1
    have hta : ta = t1 ++ (expand_lists_stage w a root ex l2).1 := by
      have := ih
      rw [hs, hs1] at this
      exact this
    simp only [List.cons_append, expand_lists_stage, hp, List.append_eq, hs, hs1]
    rw [hta, List.append_assoc]

theorem expand_lists_stage_dry (w : World) (a : Args) (root : String)
    (ex : Option String) (us : List String) (hdry : a.dry_run = true) :
    ∀ e ∈ (expand_lists_stage w a root ex us).1,
      isMsgEv e = true ∨ isCatEv e = true := by
  intro e he
  rcases expand_lists_stage_mem w a root ex us e he with ⟨u, _, hin⟩
  rcases process_list_uri_dry w a root ex u hdry e hin with h | h
  · exact Or.inl h
  · exact Or.inr (by rw [h]; rfl)

theorem expand_lists_stage_cat_mem (w : World) (a : Args) (root : String)
    (ex : Option String) (us : List String) (u : String)
    (hsafe : a.dry_run = true ∨ ∀ s d, w.cpExit s d = 0)
    (hu : u ∈ us) (hcond : (is_list_uri u && !excludeMatches ex u) = true) :
    Ev.cat u ∈ (expand_lists_stage w a root ex us).1 := by
  induction us with
  | nil => cases hu
  | cons v rest ih =>
    rcases hp : process_list_uri w a root ex v with ⟨t, r⟩
    have hr : r = .ok (process_result w root ex v) := by
      have := process_list_uri_safe w a root ex v hsafe
      rw [hp] at this
      exact this
    subst hr
    rcases hs : expand_lists_stage w a root ex rest with ⟨t', r'⟩
    have hr' : r' = .ok (rest.filterMap (process_result w root ex)) := by
      have := expand_lists_stage_safe w a root ex rest hsafe
      rw [hs] at this
      exact this
    subst hr'
    simp only [expand_lists_stage, hp, hs]
    rcases List.mem_cons.mp hu with hEq | htl
    · subst hEq
      have := process_list_uri_cat_mem w a root ex u hcond
      rw [hp] at this
      exact List.mem_append.mpr (Or.inl this)
    · have := ih htl
      rw [hs] at this
      exact List.mem_append.mpr (Or.inr this)

theorem expand_lists_stage_cat_inv (w : World) (a : Args) (root : String)
    (ex : Option String) (us : List String) (u : String)
    (hmem : Ev.cat u ∈ (expand_lists_stage w a root ex us).1) :
    u ∈ us ∧ (is_list_uri u && !excludeMatches ex u) = true := by
  rcases expand_lists_stage_mem w a root ex us _ hmem with ⟨v, hv, hin⟩
  rcases process_list_uri_cat_inv w a root ex v u hin with ⟨hEq, hcond⟩
  subst hEq
  exact ⟨hv, hcond⟩

theorem stage_mappings_eq (w : World) (a : Args) (root : String)
    (ex : Option String) (us : List String)
    (hsafe : a.dry_run = true ∨ ∀ u v, w.cpExit u v = 0) :
    stage_mappings w a root ex us = us.filterMap (process_result w root ex) := by
  unfold stage_mappings
  rw [expand_lists_stage_safe w a root ex us hsafe]

theorem fetch_top_uri_shape (w : World) (a : Args) (uri lp : String) :
    ∀ e ∈ (fetch_top_uri w a uri lp).1,
      e = Ev.cp uri lp ∨ e = Ev.cp (uri ++ ".tbi") (lp ++ ".tbi") ∨
      e = Ev.stat (uri ++ ".tbi") ∨ isMsgEv e = true := by
  intro e he
  by_cases h1 : is_list_uri uri = true <;>
  by_cases h2 : (!a.download_cram && (pyEndsWith uri ".cram" || pyEndsWith uri ".crai")) = true <;>
  by_cases h4 : (pyEndsWith uri ".gz" && !pyEndsWith uri ".gz.tbi") = true <;>
  by_cases h5 : w.statExit (uri ++ ".tbi") = 0 <;>
  by_cases h0 : w.cpExit uri lp = 0 <;>
  cases hv : a.verbose <;>
  simp [fetch_top_uri, run_gsutil_cp, gsutil_exists_run, maybe_tbi_for_gz,
    h1, h2, h4, h5, h0, hv] at he <;>
  aesop

theorem top_fetch_loop_mem_decomp (w : World) (a : Args) (u2l : List (String × String)) :
    ∀ e ∈ (top_fetch_loop w a u2l).1,
      ∃ kv ∈ u2l, e ∈ (fetch_top_uri w a kv.1 kv.2).1 := by
  induction u2l with
  | nil => intro e he; simp [top_fetch_loop] at he
  | cons kv rest ih =>
    intro e he
    rcases kv with ⟨u, l⟩
    rcases hft : fetch_top_uri w a u l with ⟨t, r⟩
    rcases r with _ | n <;> simp only [top_fetch_loop, hft] at he
    · rcases List.mem_append.mp he with h | h
      · exact ⟨(u, l), List.mem_cons_self _ _, by rw [hft]; exact h⟩
      · rcases ih e h with ⟨kv', hkv', hin⟩
        exact ⟨kv', List.mem_cons_of_mem _ hkv', hin⟩
    · exact ⟨(u, l), List.mem_cons_self _ _, by rw [hft]; exact he⟩

theorem top_fetch_loop_ok (w : World) (a : Args) (u2l : List (String × String))
    (hcp : ∀ s d, w.cpExit s d = 0) : (top_fetch_loop w a u2l).2 = .ok () := by
  induction u2l with
  | nil => rfl
  | cons kv rest ih =>
    rcases kv with ⟨u, l⟩
    rcases hft : fetch_top_uri w a u l with ⟨t, r⟩
    have hr : r = .ok () := by
      have := fetch_top_uri_ok w a u l hcp
      rw [hft] at this
      exact this
    subst hr
    simp only [top_fetch_loop, hft]
    exact ih

theorem planned_download_msgs_shape (a : Args) (u2l : List (String × String)) :
    ∀ e ∈ planned_download_msgs a u2l, isMsgEv e = true := by
  induction u2l with
  | nil => intro e he; simp [planned_download_msgs] at he
  | cons kv rest ih =>
    intro e he
    rcases kv with ⟨u, l⟩
    unfold planned_download_msgs at he
    rcases List.mem_append.mp he with h | h
    · by_cases h1 : is_list_uri u = true <;>
      by_cases h2 : (!a.download_cram && (pyEndsWith u ".cram" || pyEndsWith u ".crai")) = true <;>
      by_cases h4 : (pyEndsWith u ".gz" && !pyEndsWith u ".gz.tbi") = true <;>
      simp [h1, h2, h4] at h <;>
      first
        | (rw [h]; rfl)
        | (rcases h with h | h <;> rw [h] <;> rfl)
    · exact ih e h

theorem top_level_stage_ok (w : World) (a : Args) (u2l : List (String × String))
    (hsafe : a.dry_run = true ∨ ∀ s d, w.cpExit s d = 0) :
    (top_level_stage w a u2l).2 = .ok () := by
  unfold top_level_stage
  rcases hsafe with hdry | hcp
  · rw [if_pos (by simp [hdry])]
  · by_cases hds : (a.dry_run || a.skip_download) = true
    · rw [if_pos hds]
    · rw [if_neg (by simpa using hds)]
      exact top_fetch_loop_ok w a u2l hcp

theorem top_level_stage_dry (w : World) (a : Args) (u2l : List (String × String))
    (hdry : a.dry_run = true) :
    ∀ e ∈ (top_level_stage w a u2l).1, isMsgEv e = true := by
  intro e he
  unfold top_level_stage at he
  rw [if_pos (by simp [hdry])] at he
  rw [if_pos (by simp [hdry])] at he
  rcases List.mem_cons.mp he with h | h
  · rw [h]; rfl
  · exact planned_download_msgs_shape a u2l e h

theorem top_level_stage_no_cat (w : World) (a : Args) (u2l : List (String × String)) :
    ∀ e ∈ (top_level_stage w a u2l).1, isCatEv e = false := by
  intro e he
  unfold top_level_stage at he
  by_cases hds : (a.dry_run || a.skip_download) = true
  · rw [if_pos hds] at he
    by_cases hvd : (a.verbose || a.dry_run) = true <;> simp [hvd] at he
    rcases he with h | h
    · rw [h]; rfl
    · have := planned_download_msgs_shape a u2l e h
      rcases e <;> simp_all [isMsgEv, isCatEv]
  · rw [if_neg (by simpa using hds)] at he
    rcases top_fetch_loop_mem_decomp w a u2l e he with ⟨kv, _, hin⟩
    rcases fetch_top_uri_shape w a kv.1 kv.2 e hin with h | h | h | h <;>
      first
        | (rw [h]; rfl)
        | (rcases e <;> simp_all [isMsgEv, isCatEv])

theorem update_one_json_shape (a : Args) (p : String) (d : Json)
    (u2l : List (String × String)) :
    ∀ e ∈ update_one_json a p d u2l,
      isMsgEv e = true ∨ e = Ev.copyFile p (p ++ ".bak") ∨
      e = Ev.writeJson p (replace_uris_in_obj d u2l) := by
  intro e he
  cases hd : a.dry_run <;> cases hs : a.show_diff <;> cases hb : a.backup <;>
    cases hv : a.verbose <;> simp_all [update_one_json, isMsgEv] <;> aesop

theorem update_jsons_stage_mem (a : Args) (u2l : List (String × String))
    (targets : List (String × Json)) :
    ∀ e ∈ update_jsons_stage a u2l targets,
      ∃ pd ∈ targets, e ∈ update_one_json a pd.1 pd.2 u2l := by
  induction targets with
  | nil => intro e he; simp [update_jsons_stage] at he
  | cons pd rest ih =>
    intro e he
    rcases pd with ⟨p, d⟩
    simp only [update_jsons_stage] at he
    rcases List.mem_append.mp he with h | h
    · exact ⟨(p, d), List.mem_cons_self _ _, h⟩
    · rcases ih e h with ⟨pd', hpd', hin⟩
      exact ⟨pd', List.mem_cons_of_mem _ hpd', hin⟩

theorem update_jsons_stage_dry (a : Args) (u2l : List (String × String))
    (targets : List (String × Json)) (hdry : a.dry_run = true) :
    ∀ e ∈ update_jsons_stage a u2l targets, isMsgEv e = true := by
  intro e he
  rcases update_jsons_stage_mem a u2l targets e he with ⟨pd, _, hin⟩
  unfold update_one_json at hin
  rw [if_pos (by simp [hdry])] at hin
  cases hs : a.show_diff <;> simp [hs] at hin <;> (rw [hin]; rfl)

theorem ref_panel_stage_shape (w : World) (dest : String) (docs : List (String × Json)) :
    ∀ e ∈ ref_panel_stage w dest docs,
      isMsgEv e = true ∨
      ∃ c, e = Ev.writeFile (pjoin dest "ref_panel_1kg.samples.list") c := by
  induction docs with
  | nil => intro e he; simp [ref_panel_stage] at he
  | cons pd rest ih =>
    intro e he
    rcases pd with ⟨p, d⟩
    unfold ref_panel_stage at he
    by_cases hp : pyEndsWith p "ref_panel_1kg.json" = true
    · rw [if_pos hp] at he
      rcases hv : ref_panel_samples_value d with _ | v <;> simp only [hv] at he
      · simp at he
        exact Or.inl (by rw [he]; rfl)
      · rcases hi : pyIterate v with _ | items <;> simp only [hi] at he
        · simp at he
          exact Or.inl (by rw [he]; rfl)
        · by_cases hw : w.sampleListWriteFails = true
          · rw [if_pos hw] at he
            simp at he
            exact Or.inl (by rw [he]; rfl)
          · rw [if_neg (by simpa using hw)] at he
            rcases List.mem_append.mp he with h | h
            · simp at h
              rcases h with h | h
              · exact Or.inr ⟨_, h⟩
              · exact Or.inl (by rw [h]; rfl)
            · exact ih e h
    · rw [if_neg (by simpa using hp)] at he
      exact ih e he

theorem header_msgs_shape (a : Args) (ex : Option String) (us : List String) :
    ∀ e ∈ header_msgs a ex us, isMsgEv e = true := by
  intro e he
  unfold header_msgs at he
  by_cases hvd : (a.verbose || a.dry_run) = true <;> simp [hvd] at he
  by_cases ht : pyTruthyStrOpt ex = true <;> simp [ht] at he <;> aesop

theorem summary_stage_shape (ex : Option String) (us : List String)
    (lm u2l : List (String × String)) :
    ∀ e ∈ summary_stage ex us lm u2l, isMsgEv e = true := by
  intro e he
  have hmsg : ∀ m, isMsgEv (Ev.msg m) = true := fun _ => rfl
  have htake : ∀ x ∈ List.take 10
      (List.map (fun kv : String × String => Ev.msg ("  " ++ kv.1 ++ " -> " ++ kv.2)) u2l),
      isMsgEv x = true := by
    intro x hx
    rcases List.mem_map.mp (List.take_subset _ _ hx) with ⟨kv, _, hEq⟩
    rw [← hEq]; rfl
  unfold summary_stage at he
  by_cases ht : pyTruthyStrOpt ex = true <;>
  by_cases hl : lm.isEmpty = true <;>
  by_cases hu : us.isEmpty = true <;>
  simp [ht, hl, hu] at he <;>
  aesop

theorem main_model_run (w : World) (a : Args) (root : String) (doc : Json)
    (targets : List (String × Json))
    (hsafe : a.dry_run = true ∨ ∀ s d, w.cpExit s d = 0) :
    main_model w a root doc targets =
      (header_msgs a (getExcludeListUri doc) (gsUris doc) ++
        (expand_lists_stage w a root (getExcludeListUri doc) (gsUris doc)).1 ++
        (top_level_stage w a (main_u2l w a root doc)).1 ++
        update_jsons_stage a (main_u2l w a root doc) targets ++
        ref_panel_stage w root
          (if a.dry_run then targets
           else targets.map (fun pd => (pd.1, replace_uris_in_obj pd.2 (main_u2l w a root doc)))) ++
        summary_stage (getExcludeListUri doc) (gsUris doc)
          (stage_mappings w a root (getExcludeListUri doc) (gsUris doc))
          (main_u2l w a root doc),
       .ok ()) := by
  unfold main_model main_u2l stage_mappings
  rcases hs : expand_lists_stage w a root (getExcludeListUri doc) (gsUris doc) with ⟨t1, r1⟩
  have hr1 : r1 = .ok ((gsUris doc).filterMap
      (process_result w root (getExcludeListUri doc))) := by
    have := expand_lists_stage_safe w a root (getExcludeListUri doc) (gsUris doc) hsafe
    rw [hs] at this
    exact this
  subst hr1
  rcases ht : top_level_stage w a
      (updateAssoc (direct_u2l doc root a.mirror)
        ((gsUris doc).filterMap (process_result w root (getExcludeListUri doc)))) with ⟨t2, r2⟩
  have hr2 : r2 = .ok () := by
    have := top_level_stage_ok w a
      (updateAssoc (direct_u2l doc root a.mirror)
        ((gsUris doc).filterMap (process_result w root (getExcludeListUri doc)))) hsafe
    rw [ht] at this
    exact this
  subst hr2
  simp [hs, ht, List.append_assoc]

theorem isDryObservable_of_msg (root : String) (e : Ev) (h : isMsgEv e = true) :
    isDryObservable root e = true := by
  cases e <;> simp_all [isMsgEv, isDryObservable]

theorem not_cat_of_msg (e : Ev) (h : isMsgEv e = true) : isCatEv e = false := by
  cases e <;> simp_all [isMsgEv, isCatEv]

/-- C2 (amended): with the dry-run flag set the run completes normally and
performs no transfers, no existence checks, no JSON writes, no backups and
no local-manifest writes — every event is a print, a manifest-content read,
or the best-effort sample-list write under the destination root — but it is
not free of subprocess invocations: the `gsutil cat` content read still
happens for every scanned, non-excluded manifest URI. -/
theorem C2_amended_dry_run (w : World) (a : Args) (root : String) (doc : Json)
    (targets : List (String × Json)) (hdry : a.dry_run = true) :
    (∀ e ∈ (main_model w a root doc targets).1, isDryObservable root e = true) ∧
    (main_model w a root doc targets).2 = .ok () ∧
    (∀ u ∈ gsUris doc,
      (is_list_uri u && !excludeMatches (getExcludeListUri doc) u) = true →
      Ev.cat u ∈ (main_model w a root doc targets).1) := by
  have hrun := main_model_run w a root doc targets (Or.inl hdry)
  refine ⟨?_, by rw [hrun], ?_⟩
  · intro e he
    rw [hrun] at he
    simp only [List.mem_append] at he
    rcases he with ((((hh | h1) | h2) | h3) | h4) | h5
    · exact isDryObservable_of_msg root e (header_msgs_shape a _ _ e hh)
    · rcases expand_lists_stage_dry w a root _ _ hdry e h1 with h | h
      · exact isDryObservable_of_msg root e h
      · cases e <;> simp_all [isCatEv, isDryObservable]
    · exact isDryObservable_of_msg root e (top_level_stage_dry w a _ hdry e h2)
    · exact isDryObservable_of_msg root e (update_jsons_stage_dry a _ targets hdry e h3)
    · rcases ref_panel_stage_shape w root _ e h4 with h | ⟨c, h⟩
      · exact isDryObservable_of_msg root e h
      · rw [h]
        simp [isDryObservable]
    · exact isDryObservable_of_msg root e (summary_stage_shape _ _ _ _ e h5)
  · intro u hu hcond
    rw [hrun]
    have hstage := expand_lists_stage_cat_mem w a root (getExcludeListUri doc)
      (gsUris doc) u (Or.inl hdry) hu hcond
    simp only [List.mem_append]
    tauto

theorem C2_amended_dry_run_witness :
    (∀ e ∈ (main_model wTxt argsDry "/REF" docOneList []).1,
      isDryObservable "/REF" e = true) ∧
    (main_model wTxt argsDry "/REF" docOneList []).2 = .ok () ∧
    (∀ u ∈ gsUris docOneList,
      (is_list_uri u && !excludeMatches (getExcludeListUri docOneList) u) = true →
      Ev.cat u ∈ (main_model wTxt argsDry "/REF" docOneList []).1) :=
  C2_amended_dry_run wTxt argsDry "/REF" docOneList [] rfl

/-- C5: when the primary document's distinguished exclusion key names
manifest URI `M`, no `gsutil cat` content expansion of `M` ever occurs in
the whole run — even though `M` occurs in the document and ends in `.list` —
while every other scanned URI ending in `.list` is content-expanded. -/
theorem C5_exclusion_rule (w : World) (a : Args) (root : String) (doc : Json)
    (targets : List (String × Json)) (M : String)
    (hexcl : getExcludeListUri doc = some M)
    (hsafe : a.dry_run = true ∨ ∀ s d, w.cpExit s d = 0) :
    Ev.cat M ∉ (main_model w a root doc targets).1 ∧
    (∀ u ∈ gsUris doc, is_list_uri u = true → u ≠ M →
      Ev.cat u ∈ (main_model w a root doc targets).1) := by
  have hrun := main_model_run w a root doc targets hsafe
  constructor
  · intro hmem
    rw [hrun] at hmem
    simp only [List.mem_append] at hmem
    rcases hmem with ((((hh | h1) | h2) | h3) | h4) | h5
    · have := not_cat_of_msg _ (header_msgs_shape a _ _ _ hh)
      simp [isCatEv] at this
    · rcases expand_lists_stage_cat_inv w a root _ _ M h1 with ⟨_, hcond⟩
      rw [hexcl] at hcond
      simp [excludeMatches] at hcond
    · have := top_level_stage_no_cat w a _ _ h2
      simp [isCatEv] at this
    · rcases update_jsons_stage_mem a _ targets _ h3 with ⟨pd, _, hin⟩
      rcases update_one_json_shape a pd.1 pd.2 _ _ hin with h | h | h
      · have := not_cat_of_msg _ h
        simp [isCatEv] at this
      · injection h
      · injection h
    · rcases ref_panel_stage_shape w root _ _ h4 with h | ⟨c, h⟩
      · have := not_cat_of_msg _ h
        simp [isCatEv] at this
      · injection h
    · have := not_cat_of_msg _ (summary_stage_shape _ _ _ _ _ h5)
      simp [isCatEv] at this
  · intro u hu hl hne
    rw [hrun]
    have hcond : (is_list_uri u && !excludeMatches (getExcludeListUri doc) u) = true := by
      rw [hexcl]
      simp [hl, excludeMatches, hne]
    have hstage := expand_lists_stage_cat_mem w a root (getExcludeListUri doc)
      (gsUris doc) u hsafe hu hcond
    simp only [List.mem_append]
    tauto

theorem C5_exclusion_rule_witness :
    Ev.cat "gs://b/excl.list" ∉ (main_model wTxt argsDefault "/REF" docExcl []).1 ∧
    (∀ u ∈ gsUris docExcl, is_list_uri u = true → u ≠ "gs://b/excl.list" →
      Ev.cat u ∈ (main_model wTxt argsDefault "/REF" docExcl []).1) :=
  C5_exclusion_rule wTxt argsDefault "/REF" docExcl [] "gs://b/excl.list"
    (by decide) (Or.inr (fun _ _ => rfl))

theorem process_result_key (w : World) (root : String) (ex : Option String)
    (u : String) (kv : String × String)
    (h : process_result w root ex u = some kv) :
    kv = (u, pjoin root (posixName (strip_scheme u))) ∧
    w.catResult u ≠ none ∧
    (is_list_uri u && !excludeMatches ex u) = true := by
  unfold process_result at h
  by_cases hcond : (is_list_uri u && !excludeMatches ex u) = true
  · rw [if_pos hcond] at h
    rcases hc : w.catResult u with _ | text <;> rw [hc] at h
    · cases h
    · injection h with h'
      exact ⟨h'.symm, by simp [hc], hcond⟩
  · rw [if_neg (by simpa using hcond)] at h
    cases h

/-- C8: a failed manifest-content read is non-fatal at the per-manifest
level: the failing manifest's iteration contributes exactly the `gsutil cat`
invocation and a warning — no item downloads and no local-manifest write —
the surrounding iterations for the other scanned URIs proceed exactly as
they stand, the accumulated list mappings contain no entry for the failing
manifest, and the run's exit code stays 0. -/
theorem C8_manifest_read_failure (w : World) (a : Args) (root : String)
    (ex : Option String) (M : String) (l1 l2 : List String)
    (hsafe : a.dry_run = true ∨ ∀ s d, w.cpExit s d = 0)
    (hM : is_list_uri M = true)
    (hexcl : excludeMatches ex M = false)
    (hcat : w.catResult M = none)
    (h1 : M ∉ l1) (h2 : M ∉ l2) :
    (expand_lists_stage w a root ex (l1 ++ M :: l2)).1 =
      (expand_lists_stage w a root ex l1).1 ++
      ([Ev.cat M, Ev.msg (warnListMsg M)] ++ (expand_lists_stage w a root ex l2).1) ∧
    (expand_lists_stage w a root ex (l1 ++ M :: l2)).2 =
      .ok ((l1 ++ M :: l2).filterMap (process_result w root ex)) ∧
    (∀ kv ∈ (l1 ++ M :: l2).filterMap (process_result w root ex), kv.1 ≠ M) ∧
    (∀ (doc : Json) (targets : List (String × Json)),
      script_exit_code w a root doc targets = 0) := by
  have hw := process_list_uri_warn w a root ex M (by simp [hM, hexcl]) hcat
  refine ⟨?_, expand_lists_stage_safe w a root ex _ hsafe, ?_, ?_⟩
  · rw [expand_lists_stage_trace_append w a root ex l1 (M :: l2) hsafe]
    congr 1
    rcases hs2 : expand_lists_stage w a root ex l2 with ⟨t2, r2⟩
    have hr2 : r2 = .ok (l2.filterMap (process_result w root ex)) := by
      have := expand_lists_stage_safe w a root ex l2 hsafe
      rw [hs2] at this
      exact this
    subst hr2
    simp [expand_lists_stage, hw, hs2]
  · intro kv hkv
    rcases List.mem_filterMap.mp hkv with ⟨u, hu, hpr⟩
    rcases process_result_key w root ex u kv hpr with ⟨hkv_eq, hcatu, _⟩
    intro hEq
    have hu_eq : kv.1 = u := by rw [hkv_eq]
    rw [hu_eq] at hEq
    subst hEq
    exact hcatu hcat
  · intro doc targets
    unfold script_exit_code
    rw [main_model_run w a root doc targets hsafe]

theorem C8_manifest_read_failure_witness :
    (expand_lists_stage wNoCat argsDefault "/REF" none ([] ++ "gs://b/m.list" :: [])).1 =
      (expand_lists_stage wNoCat argsDefault "/REF" none []).1 ++
      ([Ev.cat "gs://b/m.list", Ev.msg (warnListMsg "gs://b/m.list")] ++
        (expand_lists_stage wNoCat argsDefault "/REF" none []).1) ∧
    (expand_lists_stage wNoCat argsDefault "/REF" none ([] ++ "gs://b/m.list" :: [])).2 =
      .ok (([] ++ "gs://b/m.list" :: []).filterMap
        (process_result wNoCat "/REF" none)) ∧
    (∀ kv ∈ ([] ++ "gs://b/m.list" :: []).filterMap (process_result wNoCat "/REF" none),
      kv.1 ≠ "gs://b/m.list") ∧
    (∀ (doc : Json) (targets : List (String × Json)),
      script_exit_code wNoCat argsDefault "/REF" doc targets = 0) :=
  C8_manifest_read_failure wNoCat argsDefault "/REF" none "gs://b/m.list" [] []
    (Or.inr (fun _ _ => rfl)) (by decide) rfl rfl (by simp) (by simp)

/-- C3 (amended): a manifest entry skipped by the cram/crai policy is indeed
never transferred (no copy with that source occurs anywhere in the
manifest's processing), and the skip is printed only in verbose mode; but
the entry is NOT excluded from the rewritten manifest substitution: the
rewritten local manifest renders it, like every other `gs://` entry, as its
local destination path — a path the skipped download never creates — rather
than keeping the original remote reference. -/
theorem C3_amended_heavy_skip (w : World) (a : Args) (root : String)
    (ex : Option String) (uri text src d : String)
    (hcat : w.catResult uri = some text)
    (hmem : (src, some d) ∈ (plan_list_downloads uri root text).2)
    (hcram : (pyEndsWith src ".cram" || pyEndsWith src ".crai") = true)
    (hdl : a.download_cram = false) :
    (∀ e ∈ (process_list_uri w a root ex uri).1, cpSource e ≠ some src) ∧
    (a.verbose = true →
      Ev.msg (skipCramMsg src d) ∈ (fetch_list_item w a src (some d)).1) ∧
    write_local_list_content (plan_list_downloads uri root text).2 =
      String.intercalate "\n"
        ((plan_list_downloads uri root text).2.map renderByDst) ++ "\n" ∧
    d ∈ (plan_list_downloads uri root text).2.map renderByDst := by
  refine ⟨?_, ?_, write_local_list_content_renderByDst uri root text, ?_⟩
  · intro e he
    rcases process_list_uri_mem w a root ex uri e he with h | h | ⟨text', hc', hit | hwr⟩
    · rw [h]; simp [cpSource]
    · rw [h]; simp [cpSource]
    · have htext : text' = text := by
        rw [hcat] at hc'
        injection hc' with h
        exact h.symm
      subst htext
      rcases fetch_list_items_mem w a _ e hit with ⟨sd, hsd, hin⟩
      rcases fetch_list_item_shape w a sd.1 sd.2 e hin with ⟨d', hd', hsh⟩
      rcases hsh with h' | h' | h' | h'
      · rw [h']
        simp only [cpSource]
        intro hEq
        injection hEq with hEq'
        have hsrc : sd.1 = src := hEq'
        have hnocp := fetch_list_item_cram_no_cp w a sd.1 sd.2 hdl (by rw [hsrc]; exact hcram) e hin
        rw [h'] at hnocp
        simp [isCpEv] at hnocp
      · rw [h']
        simp only [cpSource]
        intro hEq
        injection hEq with hEq'
        have : pyEndsWith src ".cram" = false ∧ pyEndsWith src ".crai" = false := by
          rw [← hEq']
          exact ⟨append_tbi_not_cram sd.1, append_tbi_not_crai sd.1⟩
        rcases this with ⟨hc1, hc2⟩
        rw [hc1, hc2] at hcram
        simp at hcram
      · rw [h']; simp [cpSource]
      · cases e <;> simp_all [isMsgEv, cpSource]
    · rcases write_local_list_run_shape a _ _ e hwr with h' | h'
      · cases e <;> simp_all [isMsgEv, cpSource]
      · rw [h']; simp [cpSource]
  · intro hv
    have hgs : pyStartsWith src "gs://" = true := by
      rcases plan_entry_shape uri root text (src, some d) hmem with ⟨hp, _⟩ | ⟨_, hd⟩
      · exact hp
      · cases hd
    simp [fetch_list_item, hgs, hdl, hcram, hv]
  · exact List.mem_map.mpr ⟨(src, some d), hmem, by simp [renderByDst]⟩

theorem C3_amended_heavy_skip_witness :
    (∀ e ∈ (process_list_uri wCram argsDefault "/REF" none "gs://b/m.list").1,
      cpSource e ≠ some "gs://b/x.cram") ∧
    (argsDefault.verbose = true →
      Ev.msg (skipCramMsg "gs://b/x.cram" "/REF/m/x.cram") ∈
        (fetch_list_item wCram argsDefault "gs://b/x.cram" (some "/REF/m/x.cram")).1) ∧
    write_local_list_content
        (plan_list_downloads "gs://b/m.list" "/REF" "gs://b/x.cram\n").2 =
      String.intercalate "\n"
        ((plan_list_downloads "gs://b/m.list" "/REF" "gs://b/x.cram\n").2.map
          renderByDst) ++ "\n" ∧
    "/REF/m/x.cram" ∈
      (plan_list_downloads "gs://b/m.list" "/REF" "gs://b/x.cram\n").2.map renderByDst :=
  C3_amended_heavy_skip wCram argsDefault "/REF" none "gs://b/m.list"
    "gs://b/x.cram\n" "gs://b/x.cram" "/REF/m/x.cram" rfl (by decide) (by decide) rfl

theorem isPre_decomp : ∀ (p l : List Char), isPre p l = true → ∃ t, l = p ++ t
  | [], l, _ => ⟨l, rfl⟩
  | a :: as, [], h => by simp [isPre] at h
  | a :: as, b :: bs, h => by
    have h' : a = b ∧ isPre as bs = true := by simpa [isPre] using h
    rcases h' with ⟨hab, hrec⟩
    rcases isPre_decomp as bs hrec with ⟨t, ht⟩
    exact ⟨t, by rw [ht, hab]; rfl⟩

theorem isPre_append_self : ∀ (q t : List Char), isPre q (q ++ t) = true
  | [], _ => rfl
  | a :: as, t => by simp [isPre, isPre_append_self as t]

theorem pyEndsWith_intro (s p : String) (pre : List Char) (h : s.data = pre ++ p.data) :
    pyEndsWith s p = true := by
  unfold pyEndsWith
  rw [h, List.reverse_append]
  exact isPre_append_self _ _

theorem pyEndsWith_elim (s p : String) (h : pyEndsWith s p = true) :
    ∃ pre, s.data = pre ++ p.data := by
  unfold pyEndsWith at h
  rcases isPre_decomp _ _ h with ⟨t, ht⟩
  refine ⟨t.reverse, ?_⟩
  have h2 := congrArg List.reverse ht
  simpa using h2

theorem isPre_append_long : ∀ (p x y : List Char),
    isPre p (x ++ y) = true → p.length ≤ x.length → isPre p x = true
  | [], _, _, _, _ => rfl
  | a :: as, [], y, h, hlen => by simp at hlen
  | a :: as, b :: bs, y, h, hlen => by
    have h' : a = b ∧ isPre as (bs ++ y) = true := by simpa [isPre] using h
    rcases h' with ⟨hab, hrec⟩
    have := isPre_append_long as bs y hrec (by simpa using hlen)
    simp [isPre, hab, this]

theorem isPre_append_short : ∀ (x p y : List Char),
    isPre p (x ++ y) = true → isPre (p.drop x.length) y = true
  | [], p, y, h => h
  | c :: xs, [], y, h => by simp [isPre]
  | c :: xs, a :: as, y, h => by
    have h' : a = c ∧ isPre as (xs ++ y) = true := by simpa [isPre] using h
    simpa using isPre_append_short xs as y h'.2

theorem startsWith_gs_decomp (M : String) (h : pyStartsWith M "gs://" = true) :
    ∃ rest, M.data = 'g' :: 's' :: ':' :: '/' :: '/' :: rest := by
  unfold pyStartsWith at h
  rcases isPre_decomp _ _ h with ⟨t, ht⟩
  refine ⟨t, ?_⟩
  rw [ht]
  rfl

theorem strip_scheme_data (M : String) (rest : List Char)
    (h : M.data = 'g' :: 's' :: ':' :: '/' :: '/' :: rest) :
    (strip_scheme M).data = rest := by
  unfold strip_scheme
  rw [h]
  rfl

theorem strip_preserves_list (M : String) (hgs : pyStartsWith M "gs://" = true)
    (hM : is_list_uri M = true) : is_list_uri (strip_scheme M) = true := by
  rcases startsWith_gs_decomp M hgs with ⟨rest, hMd⟩
  have hd : (strip_scheme M).data = rest := strip_scheme_data M rest hMd
  unfold is_list_uri pyEndsWith at hM ⊢
  rw [hd]
  rw [hMd] at hM
  have hrev : ('g' :: 's' :: ':' :: '/' :: '/' :: rest).reverse =
      rest.reverse ++ ['/', '/', ':', 's', 'g'] := by simp
  rw [hrev] at hM
  by_cases hlen : (".list" : String).data.reverse.length ≤ rest.reverse.length
  · exact isPre_append_long _ _ _ hM hlen
  · exfalso
    have h2 := isPre_append_short rest.reverse (".list").data.reverse _ hM
    have hl5 : (".list" : String).data.reverse.length = 5 := by decide
    have hrevlist : (".list" : String).data.reverse = ['t', 's', 'i', 'l', '.'] := by decide
    have hcases : rest.reverse.length = 0 ∨ rest.reverse.length = 1 ∨
        rest.reverse.length = 2 ∨ rest.reverse.length = 3 ∨
        rest.reverse.length = 4 := by omega
    rcases hcases with h0 | h0 | h0 | h0 | h0 <;> rw [h0, hrevlist] at h2 <;>
      simp [isPre] at h2

theorem splitChar_ne_nil (sep : Char) : ∀ l, splitChar sep l ≠ []
  | [] => by simp [splitChar]
  | c :: rest => by
    unfold splitChar
    split
    · simp
    · rcases h : splitChar sep rest with _ | ⟨g, gs⟩ <;> simp

theorem splitChar_no_sep (sep : Char) : ∀ l, sep ∉ l → splitChar sep l = [l]
  | [], _ => rfl
  | c :: rest, h => by
    have hc : ¬(c = sep) := fun hEq => h (by rw [hEq]; exact List.mem_cons_self _ _)
    have hr : sep ∉ rest := fun hm => h (List.mem_cons_of_mem _ hm)
    unfold splitChar
    rw [if_neg hc, splitChar_no_sep sep rest hr]

theorem splitChar_parts (sep : Char) : ∀ l g, g ∈ splitChar sep l → sep ∉ g
  | [], g, hg => by
    simp [splitChar] at hg
    simp [hg]
  | c :: rest, g, hg => by
    unfold splitChar at hg
    by_cases hc : c = sep
    · rw [if_pos hc] at hg
      rcases List.mem_cons.mp hg with h | h
      · simp [h]
      · exact splitChar_parts sep rest g h
    · rw [if_neg hc] at hg
      rcases hs : splitChar sep rest with _ | ⟨g0, gs⟩
      · exact absurd hs (splitChar_ne_nil sep rest)
      · rw [hs] at hg
        rcases List.mem_cons.mp hg with h | h
        · rw [h]
          intro hm
          rcases List.mem_cons.mp hm with h' | h'
          · exact hc h'.symm
          · exact splitChar_parts sep rest g0 (by rw [hs]; exact List.mem_cons_self _ _) h'
        · exact splitChar_parts sep rest g (by rw [hs]; exact List.mem_cons_of_mem _ h)

theorem splitChar_append (sep : Char) : ∀ (l1 l2 : List Char), sep ∉ l2 →
    ∃ gs g, splitChar sep l1 = gs ++ [g] ∧ splitChar sep (l1 ++ l2) = gs ++ [g ++ l2]
  | [], l2, h => ⟨[], [], rfl, by simp [splitChar_no_sep sep l2 h]⟩
  | c :: l1', l2, h => by
    rcases splitChar_append sep l1' l2 h with ⟨gs, g, h1, h2⟩
    by_cases hc : c = sep
    · refine ⟨[] :: gs, g, ?_, ?_⟩
      · unfold splitChar
        rw [if_pos hc, h1]
        rfl
      · show splitChar sep (c :: (l1' ++ l2)) = ([] :: gs) ++ [g ++ l2]
        unfold splitChar
        rw [if_pos hc, h2]
        rfl
    · rcases gs with _ | ⟨g0, gs0⟩
      · refine ⟨[], c :: g, ?_, ?_⟩
        · unfold splitChar
          rw [if_neg hc, h1]
          rfl
        · show splitChar sep (c :: (l1' ++ l2)) = [] ++ [(c :: g) ++ l2]
          unfold splitChar
          rw [if_neg hc, h2]
          rfl
      · refine ⟨(c :: g0) :: gs0, g, ?_, ?_⟩
        · unfold splitChar
          rw [if_neg hc, h1]
          rfl
        · show splitChar sep (c :: (l1' ++ l2)) = ((c :: g0) :: gs0) ++ [g ++ l2]
          unfold splitChar
          rw [if_neg hc, h2]
          rfl

theorem posixName_no_slash (s : String) : '/' ∉ (posixName s).data := by
  unfold posixName
  rcases List.eq_nil_or_concat
      ((splitChar '/' s.data).filter (fun p => !p.isEmpty)) with h | ⟨l0, a, h⟩
  · rw [h]
    simp
  · rw [h]
    have hmem : a ∈ (splitChar '/' s.data).filter (fun p => !p.isEmpty) := by
      rw [h]
      simp
    have hin : a ∈ splitChar '/' s.data := List.mem_of_mem_filter hmem
    have hns := splitChar_parts '/' s.data a hin
    simpa [List.getLastD_concat] using hns

theorem posixName_suffix (s p : String) (hp : p.data ≠ []) (hsep : '/' ∉ p.data)
    (h : pyEndsWith s p = true) : pyEndsWith (posixName s) p = true := by
  rcases pyEndsWith_elim s p h with ⟨pre, hpre⟩
  rcases splitChar_append '/' pre p.data hsep with ⟨gs, g, _, hsplit2⟩
  unfold posixName
  rw [hpre, hsplit2]
  have hfilter : ((gs ++ [g ++ p.data]).filter (fun q => !q.isEmpty)) =
      gs.filter (fun q => !q.isEmpty) ++ [g ++ p.data] := by
    rw [List.filter_append]
    congr 1
    simp [List.isEmpty_iff, hp]
  rw [hfilter, List.getLastD_concat]
  exact pyEndsWith_intro _ p g (by simp)

theorem string_data_inj (s t : String) (h : s.data = t.data) : s = t :=
  congrArg String.mk h

theorem pjoin_right_inj (r x y : String) (h : pjoin r x = pjoin r y) : x = y := by
  unfold pjoin at h
  have hd := congrArg String.data h
  rw [String.data_append, String.data_append, String.data_append,
    String.data_append] at hd
  exact string_data_inj _ _ (List.append_cancel_left hd)

theorem pjoin_pjoin (r x y : String) : pjoin (pjoin r x) y = pjoin r (x ++ "/" ++ y) := by
  apply string_data_inj
  simp [pjoin, String.data_append, List.append_assoc]

theorem pjoin_append (r x t : String) : (pjoin r x) ++ t = pjoin r (x ++ t) := by
  apply string_data_inj
  simp [pjoin, String.data_append, List.append_assoc]

theorem slash_mem (x y : String) : '/' ∈ (x ++ "/" ++ y).data := by
  rw [String.data_append, String.data_append]
  refine List.mem_append.mpr (Or.inl (List.mem_append.mpr (Or.inr ?_)))
  decide

theorem ne_of_slash_free (x y n : String) (h : '/' ∉ n.data) : x ++ "/" ++ y ≠ n := by
  intro hEq
  apply h
  rw [← hEq]
  exact slash_mem x y

mutual
theorem collectUris_starts : (j : Json) → ∀ u ∈ collectUris j, pyStartsWith u "gs://" = true
  | .obj kvs => collectUrisKVs_starts kvs
  | .arr xs => collectUrisArr_starts xs
  | .str s => by
    intro u hu
    unfold collectUris at hu
    by_cases hgs : pyStartsWith s "gs://" = true
    · rw [if_pos hgs] at hu
      rcases List.mem_singleton.mp hu with rfl
      exact hgs
    · rw [if_neg hgs] at hu
      cases hu
  | .num n => by intro u hu; cases hu
  | .bool b => by intro u hu; cases hu
  | .null => by intro u hu; cases hu

theorem collectUrisArr_starts : (xs : List Json) →
    ∀ u ∈ collectUrisArr xs, pyStartsWith u "gs://" = true
  | [] => by intro u hu; cases hu
  | x :: xs => by
    intro u hu
    rcases List.mem_append.mp hu with h | h
    · exact collectUris_starts x u h
    · exact collectUrisArr_starts xs u h

theorem collectUrisKVs_starts : (kvs : List (String × Json)) →
    ∀ u ∈ collectUrisKVs kvs, pyStartsWith u "gs://" = true
  | [] => by intro u hu; cases hu
  | (k, v) :: kvs => by
    intro u hu
    rcases List.mem_append.mp hu with h | h
    · exact collectUris_starts v u h
    · exact collectUrisKVs_starts kvs u h
end

theorem gsUris_starts (doc : Json) : ∀ u ∈ gsUris doc, pyStartsWith u "gs://" = true := by
  intro u hu
  have h1 : u ∈ find_gs_uris doc := (List.perm_insertionSort _ _).mem_iff.mp hu
  exact collectUris_starts doc u (List.mem_dedup.mp h1)

theorem lookupA_append (l1 l2 : List (String × String)) (k : String) :
    lookupA (l1 ++ l2) k =
      match lookupA l1 k with
      | some v => some v
      | none => lookupA l2 k := by
  induction l1 with
  | nil => rfl
  | cons kv rest ih =>
    rcases kv with ⟨k', v⟩
    by_cases hk : k' = k <;> simp [lookupA, hk, ih]

theorem lookupA_map_self (l : List String) (f : String → String) (k : String)
    (hk : k ∈ l) : lookupA (l.map (fun u => (u, f u))) k = some (f k) := by
  induction l with
  | nil => cases hk
  | cons u rest ih =>
    rcases List.mem_cons.mp hk with rfl | h
    · simp [lookupA]
    · by_cases hu : u = k
      · subst hu
        simp [lookupA]
      · simp only [List.map_cons, lookupA]
        rw [if_neg hu]
        exact ih h

theorem lookupA_eq_none (l : List (String × String)) (k : String)
    (h : ∀ kv ∈ l, kv.1 ≠ k) : lookupA l k = none := by
  induction l with
  | nil => rfl
  | cons kv rest ih =>
    rcases kv with ⟨k', v⟩
    simp only [lookupA]
    rw [if_neg (h (k', v) (List.mem_cons_self _ _))]
    exact ih (fun kv hkv => h kv (List.mem_cons_of_mem _ hkv))

theorem lookupA_none_keys (l : List (String × String)) (k : String)
    (h : lookupA l k = none) : ∀ kv ∈ l, kv.1 ≠ k := by
  induction l with
  | nil => intro kv hkv; cases hkv
  | cons kv0 rest ih =>
    intro kv hkv
    rcases kv0 with ⟨k', v⟩
    simp only [lookupA] at h
    by_cases hk : k' = k
    · rw [if_pos hk] at h
      cases h
    · rw [if_neg hk] at h
      rcases List.mem_cons.mp hkv with rfl | hmem
    

      · exact hk
      · exact ih h kv hmem

theorem lookupA_mem (l : List (String × String)) (k v : String)
    (h : lookupA l k = some v) : (k, v) ∈ l := by
  induction l with
  | nil => cases h
  | cons kv rest ih =>
    rcases kv with ⟨k', v'⟩
    simp only [lookupA] at h
    by_cases hk : k' = k
    · rw [if_pos hk] at h
      injection h with h'
      subst hk
      subst h'
      exact List.mem_cons_self _ _
    · rw [if_neg hk] at h
      exact List.mem_cons_of_mem _ (ih h)

theorem lookupA_map_update (base upd : List (String × String)) (k : String)
    (hupd : lookupA upd k = none) :
    lookupA (base.map (fun kv =>
      match lookupA upd kv.1 with
      | some v => (kv.1, v)
      | none => kv)) k = lookupA base k := by
  induction base with
  | nil => rfl
  | cons kv rest ih =>
    rcases kv with ⟨k', v⟩
    by_cases hk : k' = k
    · subst hk
      simp only [List.map_cons, hupd]
      simp [lookupA]
    · simp only [List.map_cons]
      rcases hl : lookupA upd k' with _ | v' <;> simp only [hl, lookupA] <;>
        rw [if_neg hk, if_neg hk] <;> exact ih

theorem lookupA_updateAssoc (base upd : List (String × String)) (k : String)
    (hupd : lookupA upd k = none) :
    lookupA (updateAssoc base upd) k = lookupA base k := by
  unfold updateAssoc
  rw [lookupA_append, lookupA_map_update base upd k hupd]
  rcases h : lookupA base k with _ | v
  · have hnone : lookupA (upd.filter (fun kv => (lookupA base kv.1).isNone)) k = none :=
      lookupA_eq_none _ _ (fun kv hkv =>
        lookupA_none_keys upd k hupd kv (List.mem_of_mem_filter hkv))
    simp [hnone]
  · simp

theorem main_u2l_eq (w : World) (a : Args) (root : String) (doc : Json)
    (hsafe : a.dry_run = true ∨ ∀ s d, w.cpExit s d = 0) :
    main_u2l w a root doc =
      updateAssoc (direct_u2l doc root a.mirror)
        ((gsUris doc).filterMap (process_result w root (getExcludeListUri doc))) := by
  unfold main_u2l
  rw [expand_lists_stage_safe w a root (getExcludeListUri doc) (gsUris doc) hsafe]

theorem main_u2l_entry (w : World) (a : Args) (root : String) (doc : Json)
    (hsafe : a.dry_run = true ∨ ∀ s d, w.cpExit s d = 0)
    (hmirror : a.mirror = false) :
    ∀ kv ∈ main_u2l w a root doc,
      kv.1 ∈ gsUris doc ∧ kv.2 = pjoin root (posixName (strip_scheme kv.1)) := by
  intro kv hkv
  rw [main_u2l_eq w a root doc hsafe] at hkv
  set upd := (gsUris doc).filterMap (process_result w root (getExcludeListUri doc)) with hupd
  have hupd_shape : ∀ kv' ∈ upd, kv'.1 ∈ gsUris doc ∧
      kv'.2 = pjoin root (posixName (strip_scheme kv'.1)) := by
    intro kv' hkv'
    rcases List.mem_filterMap.mp hkv' with ⟨u, hu, hpr⟩
    rcases process_result_key w root (getExcludeListUri doc) u kv' hpr with ⟨hEq, _, _⟩
    rw [hEq]
    exact ⟨hu, rfl⟩
  unfold updateAssoc at hkv
  rcases List.mem_append.mp hkv with h | h
  · rcases List.mem_map.mp h with ⟨kv0, hkv0, hEq⟩
    rcases List.mem_map.mp hkv0 with ⟨u, hu, hEq0⟩
    rcases hl : lookupA upd kv0.1 with _ | v
    · rw [hl] at hEq
      rw [← hEq, ← hEq0]
      refine ⟨hu, ?_⟩
      simp [make_dest_path_for_uri, hmirror]
    · rw [hl] at hEq
      have hv := hupd_shape (kv0.1, v) (lookupA_mem upd kv0.1 v hl)
      rw [← hEq]
      constructor
      · rw [← hEq0] at hv ⊢
        simpa using hv.1
      · simpa using hv.2
  · exact hupd_shape kv (List.mem_of_mem_filter h)

theorem main_u2l_lookup_excluded_or_failed (w : World) (a : Args) (root : String)
    (doc : Json) (M : String)
    (hsafe : a.dry_run = true ∨ ∀ s d, w.cpExit s d = 0)
    (hmirror : a.mirror = false)
    (hmem : M ∈ gsUris doc)
    (hM : w.catResult M = none ∨
      (is_list_uri M && !excludeMatches (getExcludeListUri doc) M) = false) :
    lookupA (main_u2l w a root doc) M =
      some (pjoin root (posixName (strip_scheme M))) := by
  rw [main_u2l_eq w a root doc hsafe]
  have hprM : process_result w root (getExcludeListUri doc) M = none := by
    unfold process_result
    rcases hM with h | h
    · rw [h]
      split <;> rfl
    · rw [if_neg (by simp [h])]
  have hupd : lookupA ((gsUris doc).filterMap
      (process_result w root (getExcludeListUri doc))) M = none := by
    apply lookupA_eq_none
    intro kv hkv
    rcases List.mem_filterMap.mp hkv with ⟨u, hu, hpr⟩
    rcases process_result_key w root (getExcludeListUri doc) u kv hpr with ⟨hEq, hcat, hcond⟩
    rw [hEq]
    intro hEq2
    simp only at hEq2
    subst hEq2
    rw [hprM] at hpr
    cases hpr
  rw [lookupA_updateAssoc _ _ M hupd]
  unfold direct_u2l
  have := lookupA_map_self (gsUris doc)
    (fun u => make_dest_path_for_uri u root a.mirror) M hmem
  rw [this]
  simp [make_dest_path_for_uri, hmirror]

theorem replaceJ_str (m : List (String × String)) (s : String) :
    replaceJ m (Json.str s) = Json.str ((lookupA m s).getD s) := by
  unfold replaceJ
  rcases lookupA m s with _ | v <;> rfl

theorem fetch_top_uri_list_skip (w : World) (a : Args) (uri lp : String)
    (h : is_list_uri uri = true) : fetch_top_uri w a uri lp = ([], .ok ()) := by
  unfold fetch_top_uri
  rw [if_pos h]

theorem createdPath_of_msg (e : Ev) (h : isMsgEv e = true) : createdPath e = none := by
  cases e <;> simp_all [isMsgEv, createdPath]

/-- C9: when a manifest `M`'s content read fails (and `M` is scanned, ends
in `.list`, and is not the excluded manifest), the URI-to-local mapping
still maps `M` to its flat destination path, the JSON Rewriter therefore
rewrites a leaf `M` to that local path, yet the manifest file itself is
never downloaded — the top-level loop performs no transfer with source `M` —
and, absent basename collisions with the other scanned URIs, the target
paths and the derived sample list, no event of the whole run creates that
local path: the rewritten documents point at a file the run never writes. -/
theorem C9_failed_manifest_dangling_path (w : World) (a : Args) (root : String)
    (doc : Json) (targets : List (String × Json)) (M : String)
    (hcp : ∀ s d, w.cpExit s d = 0)
    (hmirror : a.mirror = false)
    (hmem : M ∈ gsUris doc)
    (hM : is_list_uri M = true)
    (hcat : w.catResult M = none)
    (hbase : ∀ u ∈ gsUris doc, u ≠ M →
      posixName (strip_scheme u) ≠ posixName (strip_scheme M))
    (htargets : ∀ pd ∈ targets,
      pd.1 ≠ pjoin root (posixName (strip_scheme M)) ∧
      pd.1 ++ ".bak" ≠ pjoin root (posixName (strip_scheme M)))
    (hsample : posixName (strip_scheme M) ≠ "ref_panel_1kg.samples.list") :
    lookupA (main_u2l w a root doc) M =
      some (pjoin root (posixName (strip_scheme M))) ∧
    replace_uris_in_obj (Json.str M) (main_u2l w a root doc) =
      Json.str (pjoin root (posixName (strip_scheme M))) ∧
    (∀ e ∈ (top_level_stage w a (main_u2l w a root doc)).1, cpSource e ≠ some M) ∧
    (∀ e ∈ (main_model w a root doc targets).1,
      createdPath e ≠ some (pjoin root (posixName (strip_scheme M)))) := by
  have hsafe : a.dry_run = true ∨ ∀ s d, w.cpExit s d = 0 := Or.inr hcp
  have hlook := main_u2l_lookup_excluded_or_failed w a root doc M hsafe hmirror hmem
    (Or.inl hcat)
  have hnoslash : '/' ∉ (posixName (strip_scheme M)).data :=
    posixName_no_slash (strip_scheme M)
  have hlistname : is_list_uri (posixName (strip_scheme M)) = true := by
    have h1 : is_list_uri (strip_scheme M) = true :=
      strip_preserves_list M (gsUris_starts doc M hmem) hM
    exact posixName_suffix (strip_scheme M) ".list" (by decide) (by decide) h1
  have hflat_ne_slash : ∀ x y : String,
      pjoin root (x ++ "/" ++ y) ≠ pjoin root (posixName (strip_scheme M)) := by
    intro x y hEq
    exact ne_of_slash_free x y _ hnoslash (pjoin_right_inj root _ _ hEq)
  have htop : ∀ e ∈ (top_level_stage w a (main_u2l w a root doc)).1,
      cpSource e ≠ some M ∧
      createdPath e ≠ some (pjoin root (posixName (strip_scheme M))) := by
    intro e he
    unfold top_level_stage at he
    by_cases hds : (a.dry_run || a.skip_download) = true
    · rw [if_pos hds] at he
      by_cases hvd : (a.verbose || a.dry_run) = true <;> simp [hvd] at he
      have hm : isMsgEv e = true := by
        rcases he with h | h
        · rw [h]; rfl
        · exact planned_download_msgs_shape a _ e h
      constructor
      · cases e <;> simp_all [isMsgEv, cpSource]
      · rw [createdPath_of_msg e hm]
        simp
    · rw [if_neg (by simpa using hds)] at he
      rcases top_fetch_loop_mem_decomp w a _ e he with ⟨kv, hkv, hin⟩
      rcases main_u2l_entry w a root doc hsafe hmirror kv hkv with ⟨hkey, hval⟩
      by_cases hl : is_list_uri kv.1 = true
      · rw [fetch_top_uri_list_skip w a kv.1 kv.2 hl] at hin
        cases hin
      · have hne_M : kv.1 ≠ M := by
          intro hEq
          rw [hEq, hM] at hl
          exact hl rfl
        rcases fetch_top_uri_shape w a kv.1 kv.2 e hin with h | h | h | h
        · constructor
          · rw [h]
            simp only [cpSource]
            intro hEq
            injection hEq with hEq'
            exact hne_M hEq'
          · rw [h]
            simp only [createdPath]
            intro hEq
            injection hEq with hEq'
            rw [hval] at hEq'
            exact hbase kv.1 hkey hne_M (pjoin_right_inj root _ _ hEq')
        · constructor
          · rw [h]
            simp only [cpSource]
            intro hEq
            injection hEq with hEq'
            rw [← hEq'] at hM
            rw [append_tbi_not_list kv.1] at hM
            cases hM
          · rw [h]
            simp only [createdPath]
            intro hEq
            injection hEq with hEq'
            rw [hval, pjoin_append] at hEq'
            have := pjoin_right_inj root _ _ hEq'
            rw [← this] at hlistname
            rw [append_tbi_not_list _] at hlistname
            cases hlistname
        · rw [h]
          exact ⟨by simp [cpSource], by simp [createdPath]⟩
        · refine ⟨?_, ?_⟩
          · cases e <;> simp_all [isMsgEv, cpSource]
          · rw [createdPath_of_msg e h]
            simp
  refine ⟨hlook, ?_, fun e he => (htop e he).1, ?_⟩
  · show replaceJ (main_u2l w a root doc) (Json.str M) = _
    rw [replaceJ_str, hlook]
    rfl
  · intro e he
    have hdecomp := congrArg Prod.fst (main_model_run w a root doc targets hsafe)
    rw [hdecomp] at he
    simp only [List.mem_append] at he
    rcases he with ((((hh | h1) | h2) | h3) | h4) | h5
    · rw [createdPath_of_msg e (header_msgs_shape a _ _ e hh)]
      simp
    · rcases expand_lists_stage_mem w a root _ _ e h1 with ⟨u, hu, hin⟩
      rcases process_list_uri_mem w a root _ u e hin with h | h | ⟨text, hcatu, hit | hwr⟩
      · rw [h]; simp [createdPath]
      · rw [h]; simp [createdPath]
      · have hune : u ≠ M := by
          intro hEq
          rw [hEq, hcat] at hcatu
          cases hcatu
        rcases fetch_list_items_mem w a _ e hit with ⟨sd, hsd, hini⟩
        rcases fetch_list_item_shape w a sd.1 sd.2 e hini with ⟨d', hd', hsh⟩
        have hdshape : d' = pjoin (pjoin root (pyStem (posixName (strip_scheme u))))
            (posixName (strip_scheme sd.1)) := by
          rcases plan_entry_shape u root text sd hsd with ⟨_, hd2⟩ | ⟨_, hd2⟩
          · rw [hd'] at hd2
            injection hd2
          · rw [hd'] at hd2
            cases hd2
        rcases hsh with h | h | h | h
        · rw [h]
          simp only [createdPath]
          intro hEq
          injection hEq with hEq'
          rw [hdshape, pjoin_pjoin] at hEq'
          exact hflat_ne_slash _ _ hEq'
        · rw [h]
          simp only [createdPath]
          intro hEq
          injection hEq with hEq'
          rw [hdshape, pjoin_append, pjoin_pjoin] at hEq'
          exact hflat_ne_slash _ _ hEq'
        · rw [h]; simp [createdPath]
        · rw [createdPath_of_msg e h]
          simp
      · have hune : u ≠ M := by
          intro hEq
          rw [hEq, hcat] at hcatu
          cases hcatu
        rcases write_local_list_run_shape a _ _ e hwr with h | h
        · rw [createdPath_of_msg e h]
          simp
        · rw [h]
          simp only [createdPath]
          intro hEq
          injection hEq with hEq'
          rw [plan_list_downloads_fst] at hEq'
          exact hbase u hu hune (pjoin_right_inj root _ _ hEq')
    · exact (htop e h2).2
    · rcases update_jsons_stage_mem a _ targets e h3 with ⟨pd, hpd, hin⟩
      rcases update_one_json_shape a pd.1 pd.2 _ e hin with h | h | h
      · rw [createdPath_of_msg e h]
        simp
      · rw [h]
        simp only [createdPath]
        intro hEq
        injection hEq with hEq'
        exact (htargets pd hpd).2 hEq'
      · rw [h]
        simp only [createdPath]
        intro hEq
        injection hEq with hEq'
        exact (htargets pd hpd).1 hEq'
    · rcases ref_panel_stage_shape w root _ e h4 with h | ⟨c, h⟩
      · rw [createdPath_of_msg e h]
        simp
      · rw [h]
        simp only [createdPath]
        intro hEq
        injection hEq with hEq'
        exact hsample (pjoin_right_inj root _ _ hEq'.symm)
    · rw [createdPath_of_msg e (summary_stage_shape _ _ _ _ e h5)]
      simp

theorem C9_failed_manifest_dangling_path_witness :
    lookupA (main_u2l wNoCat argsDefault "/REF" docOneList) "gs://b/m.list" =
      some (pjoin "/REF" (posixName (strip_scheme "gs://b/m.list"))) ∧
    replace_uris_in_obj (Json.str "gs://b/m.list")
        (main_u2l wNoCat argsDefault "/REF" docOneList) =
      Json.str (pjoin "/REF" (posixName (strip_scheme "gs://b/m.list"))) ∧
    (∀ e ∈ (top_level_stage wNoCat argsDefault
        (main_u2l wNoCat argsDefault "/REF" docOneList)).1,
      cpSource e ≠ some "gs://b/m.list") ∧
    (∀ e ∈ (main_model wNoCat argsDefault "/REF" docOneList []).1,
      createdPath e ≠
        some (pjoin "/REF" (posixName (strip_scheme "gs://b/m.list")))) :=
  C9_failed_manifest_dangling_path wNoCat argsDefault "/REF" docOneList []
    "gs://b/m.list" (fun _ _ => rfl) rfl (by decide) (by decide) rfl
    (by decide) (by simp) (by decide)
